import Mathlib

/-!
# Verification of the Backtestr multi-timeframe backtesting engine

A shallow embedding, in Lean 4, of the core of the `backtestr` engine
(crates `backtestr-core` and `backtestr-data`), together with theorems
settling the frozen specification claims.

Modelling conventions:
* Rust `f64` prices are modelled as `ℚ` (the claims under study concern
  ticks/bars with finite, non-NaN prices, where `f64` behaves like an
  ordered field up to rounding; no claim here depends on rounding).
* Rust `i64` timestamps are `Int`; `i64` division in bar-boundary
  arithmetic truncates towards zero, so it is rendered with `Int.div`.
* `Uuid::new_v4()` position identifiers are opaque; they are modelled by
  a fresh-counter `Nat` drawn from the manager (claims treat ids as opaque).
* `DashMap`/`HashMap` stores are association lists; the single-threaded
  tick path of the engine makes this faithful for the claims at hand.
* `chrono::Utc::now()` is passed in explicitly where the source calls it.
-/

namespace Backtestr

/-- `Timeframe` from `crates/backtestr-data/src/timeframe.rs`. -/
inductive Timeframe where
  | M1 | M5 | M15 | H1 | H4 | D1
deriving DecidableEq, Repr

/-- `Timeframe::duration_ms`. -/
def Timeframe.duration_ms : Timeframe → Int
  | .M1 => 60000
  | .M5 => 300000
  | .M15 => 900000
  | .H1 => 3600000
  | .H4 => 14400000
  | .D1 => 86400000

/-- `Timeframe::bar_start_timestamp`: `(t / duration) * duration` with Rust
`i64` division (truncation towards zero). -/
def Timeframe.bar_start_timestamp (tf : Timeframe) (tick_timestamp : Int) : Int :=
  (Int.tdiv tick_timestamp tf.duration_ms) * tf.duration_ms

/-- `Timeframe::bar_end_timestamp`. -/
def Timeframe.bar_end_timestamp (tf : Timeframe) (bar_start : Int) : Int :=
  bar_start + tf.duration_ms

/-- `Tick` from `crates/backtestr-data/src/models/tick.rs` (the `id`
database field is omitted: it is `None` on every tick the engine builds). -/
structure Tick where
  symbol : String
  timestamp : Int
  bid : ℚ
  ask : ℚ
  bid_size : Option Int := none
  ask_size : Option Int := none
deriving DecidableEq, Repr

/-- `Tick::new_with_millis`. -/
def Tick.new_with_millis (symbol : String) (timestamp : Int) (bid ask : ℚ) : Tick :=
  { symbol := symbol, timestamp := timestamp, bid := bid, ask := ask }

/-- `Bar` from `crates/backtestr-data/src/models/bar.rs` (`id` omitted as
for `Tick`; field `open` is `open_` because `open` is a Lean keyword). -/
structure Bar where
  symbol : String
  timeframe : Timeframe
  timestamp_start : Int
  timestamp_end : Int
  open_ : ℚ
  high : ℚ
  low : ℚ
  close : ℚ
  volume : Option Int := none
  tick_count : Option Int := none
deriving DecidableEq, Repr

/-- `Bar::new`. -/
def Bar.new (symbol : String) (timeframe : Timeframe) (timestamp_start timestamp_end : Int)
    (open_ high low close : ℚ) : Bar :=
  { symbol := symbol, timeframe := timeframe, timestamp_start := timestamp_start,
    timestamp_end := timestamp_end, open_ := open_, high := high, low := low, close := close }

/-- `Bar::with_volume`. -/
def Bar.with_volume (b : Bar) (volume : Int) : Bar := { b with volume := some volume }

/-- `Bar::with_tick_count`. -/
def Bar.with_tick_count (b : Bar) (tick_count : Int) : Bar :=
  { b with tick_count := some tick_count }

/-- `PartialBar` from `crates/backtestr-core/src/mtf/partial_bar.rs`.
The `f32` field `completion_percentage` is modelled in `ℚ` (no claim
depends on `f32` rounding). -/
structure PartialBar where
  open_ : ℚ
  high : ℚ
  low : ℚ
  close : ℚ
  volume : Int
  tick_count : Nat
  completion_percentage : ℚ
  milliseconds_elapsed : Int
  milliseconds_remaining : Int
deriving DecidableEq, Repr

/-- `PartialBar::new`. -/
def PartialBar.new (price : ℚ) (volume : Int) (current_time bar_start bar_end : Int) :
    PartialBar :=
  let duration := bar_end - bar_start
  let elapsed := current_time - bar_start
  let remaining := bar_end - current_time
  let completion : ℚ := if duration > 0 then ((elapsed : ℚ) / (duration : ℚ)) * 100 else 0
  { open_ := price, high := price, low := price, close := price,
    volume := volume, tick_count := 1,
    completion_percentage := min (max completion 0) 100,
    milliseconds_elapsed := elapsed,
    milliseconds_remaining := max remaining 0 }

/-- `PartialBar::update`. -/
def PartialBar.update (pb : PartialBar) (price : ℚ) (volume : Int)
    (current_time bar_start bar_end : Int) : PartialBar :=
  let duration := bar_end - bar_start
  let elapsed := current_time - bar_start
  let remaining := bar_end - current_time
  let completion : ℚ := if duration > 0 then ((elapsed : ℚ) / (duration : ℚ)) * 100 else 0
  { open_ := pb.open_,
    high := max pb.high price,
    low := min pb.low price,
    close := price,
    volume := pb.volume + volume,
    tick_count := pb.tick_count + 1,
    completion_percentage := min (max completion 0) 100,
    milliseconds_elapsed := elapsed,
    milliseconds_remaining := max remaining 0 }

/-- `TimeframeState` from `crates/backtestr-core/src/mtf/timeframe_state.rs`. -/
structure TimeframeState where
  timeframe : Timeframe
  current_bar : Option PartialBar
  completed_bars : List Bar
  bar_start_time : Int
  bar_end_time : Int
  tick_count : Nat
  history_limit : Nat
deriving DecidableEq, Repr

/-- `TimeframeState::with_history_limit`. -/
def TimeframeState.with_history_limit (timeframe : Timeframe) (history_limit : Nat) :
    TimeframeState :=
  { timeframe := timeframe, current_bar := none, completed_bars := [],
    bar_start_time := 0, bar_end_time := 0, tick_count := 0, history_limit := history_limit }

/-- `TimeframeState::new` (default history 1000). -/
def TimeframeState.new (timeframe : Timeframe) : TimeframeState :=
  TimeframeState.with_history_limit timeframe 1000

/-- `TimeframeState::start_new_bar`. -/
def TimeframeState.start_new_bar (s : TimeframeState) (bar_start bar_end : Int)
    (price : ℚ) (volume : Int) (timestamp : Int) : TimeframeState :=
  { s with bar_start_time := bar_start, bar_end_time := bar_end, tick_count := 1,
           current_bar := some (PartialBar.new price volume timestamp bar_start bar_end) }

/-- `TimeframeState::update_current_bar`. -/
def TimeframeState.update_current_bar (s : TimeframeState) (price : ℚ) (volume : Int)
    (timestamp : Int) : TimeframeState :=
  match s.current_bar with
  | some pb =>
      { s with current_bar := some (pb.update price volume timestamp s.bar_start_time s.bar_end_time),
               tick_count := s.tick_count + 1 }
  | none => s

/-- `TimeframeState::complete_current_bar`. -/
def TimeframeState.complete_current_bar (s : TimeframeState) (symbol : String) :
    TimeframeState × Option Bar :=
  match s.current_bar with
  | some pb =>
      let completed_bar :=
        ((Bar.new symbol s.timeframe s.bar_start_time s.bar_end_time
            pb.open_ pb.high pb.low pb.close).with_volume pb.volume).with_tick_count
          (Int.ofNat pb.tick_count)
      let hist := s.completed_bars ++ [completed_bar]
      let hist := if hist.length > s.history_limit then hist.drop 1 else hist
      ({ s with current_bar := none, completed_bars := hist, tick_count := 0 },
       some completed_bar)
  | none => (s, none)

/-- `TimeframeState::process_tick`. Returns the updated state and the bar
completed by this tick, if any. -/
def TimeframeState.process_tick (s : TimeframeState) (symbol : String) (timestamp : Int)
    (price : ℚ) (volume : Int) : TimeframeState × Option Bar :=
  let bar_start := s.timeframe.bar_start_timestamp timestamp
  let bar_end := s.timeframe.bar_end_timestamp bar_start
  if bar_start ≠ s.bar_start_time ∧ s.current_bar.isSome then
    let (s, completed) := s.complete_current_bar symbol
    (s.start_new_bar bar_start bar_end price volume timestamp, completed)
  else
    match s.current_bar with
    | none => (s.start_new_bar bar_start bar_end price volume timestamp, none)
    | some _ => (s.update_current_bar price volume timestamp, none)

/-- Driver: process a list of `(timestamp, price, volume)` ticks through a
`TimeframeState`, collecting every completed bar (in order of emission). -/
def TimeframeState.run (s : TimeframeState) (symbol : String) :
    List (Int × ℚ × Int) → TimeframeState × List Bar
  | [] => (s, [])
  | (t, p, v) :: rest =>
      let (s', emitted) := s.process_tick symbol t p v
      let (s'', bars) := s'.run symbol rest
      (s'', (emitted.toList) ++ bars)

/-! ## Positions (`crates/backtestr-core/src/positions/`) -/

/-- `PositionSide` from `positions/position.rs`. -/
inductive PositionSide where
  | Long | Short
deriving DecidableEq, Repr

/-- `PositionState` from `positions/position.rs`. -/
inductive PositionState where
  | Pending | Open | Closed | Cancelled
deriving DecidableEq, Repr

/-- `StateTransition` from `positions/position_state.rs`. -/
inductive StateTransition where
  | PendingToOpen | PendingToCancelled | OpenToClosed | OpenToPending
deriving DecidableEq, Repr

/-- `StateValidator::validate_transition` from `positions/position_state.rs`:
the `anyhow` error is modelled by `Except String`. -/
def StateValidator.validate_transition (from_ to_ : PositionState) :
    Except String StateTransition :=
  match from_, to_ with
  | .Pending, .Open => .ok .PendingToOpen
  | .Pending, .Cancelled => .ok .PendingToCancelled
  | .Open, .Closed => .ok .OpenToClosed
  | .Open, .Pending => .ok .OpenToPending
  | _, _ => .error "Invalid state transition"

/-- `StateValidator::can_modify`. -/
def StateValidator.can_modify (state : PositionState) : Bool :=
  state == .Open || state == .Pending

/-- `StateValidator.can_close`. -/
def StateValidator.can_close (state : PositionState) : Bool :=
  state == .Open

/-- `StateValidator.can_cancel`. -/
def StateValidator.can_cancel (state : PositionState) : Bool :=
  state == .Pending

/-- `Position` from `positions/position.rs`. `Uuid` ids are opaque and are
modelled as `Nat` (drawn from a fresh counter in the manager). -/
structure Position where
  id : Nat
  symbol : String
  side : PositionSide
  quantity : ℚ
  entry_price : ℚ
  current_price : ℚ
  stop_loss : Option ℚ
  take_profit : Option ℚ
  state : PositionState
  opened_at : Int
  closed_at : Option Int
  parent_id : Option Nat
  child_ids : List Nat
  metadata : List (String × String)
deriving DecidableEq, Repr

/-- `Position::new_with_params` (`id` supplied by the caller, standing for
`Uuid::new_v4()`). -/
def Position.new_with_params (id : Nat) (symbol : String) (side : PositionSide)
    (quantity entry_price : ℚ) (stop_loss take_profit : Option ℚ)
    (parent_id : Option Nat) (opened_at : Int) : Position :=
  { id := id, symbol := symbol, side := side, quantity := quantity,
    entry_price := entry_price, current_price := entry_price,
    stop_loss := stop_loss, take_profit := take_profit,
    state := .Open, opened_at := opened_at, closed_at := none,
    parent_id := parent_id, child_ids := [], metadata := [] }

/-- `Position::unrealized_pnl`. -/
def Position.unrealized_pnl (p : Position) : ℚ :=
  match p.side with
  | .Long => (p.current_price - p.entry_price) * p.quantity
  | .Short => (p.entry_price - p.current_price) * p.quantity

/-- `Position::realized_pnl`. -/
def Position.realized_pnl (p : Position) (close_price : ℚ) : ℚ :=
  match p.side with
  | .Long => (close_price - p.entry_price) * p.quantity
  | .Short => (p.entry_price - close_price) * p.quantity

/-- `Position::update_price`. -/
def Position.update_price (p : Position) (new_price : ℚ) : Position :=
  { p with current_price := new_price }

/-- `Position::is_stop_loss_triggered`. -/
def Position.is_stop_loss_triggered (p : Position) : Bool :=
  match p.stop_loss with
  | some stop_level =>
      match p.side with
      | .Long => p.current_price ≤ stop_level
      | .Short => p.current_price ≥ stop_level
  | none => false

/-- `Position::is_take_profit_triggered`. -/
def Position.is_take_profit_triggered (p : Position) : Bool :=
  match p.take_profit with
  | some tp_level =>
      match p.side with
      | .Long => p.current_price ≥ tp_level
      | .Short => p.current_price ≤ tp_level
  | none => false

/-- `Position::close`: returns the closed position and the realized P&L. -/
def Position.close (p : Position) (close_price : ℚ) (closed_at : Int) : Position × ℚ :=
  let p' := { p with current_price := close_price, closed_at := some closed_at,
                     state := PositionState.Closed }
  (p', p'.realized_pnl close_price)

/-- `Position::add_child`. -/
def Position.add_child (p : Position) (child_id : Nat) : Position :=
  if p.child_ids.contains child_id then p else { p with child_ids := p.child_ids ++ [child_id] }

/-- `PositionStatistics` from `positions/position_state.rs`. -/
structure PositionStatistics where
  total_opened : Nat
  total_closed : Nat
  total_cancelled : Nat
  total_wins : Nat
  total_losses : Nat
  total_pnl : ℚ
  largest_win : ℚ
  largest_loss : ℚ
  average_win : ℚ
  average_loss : ℚ
  win_rate : ℚ
  wins_pnl : List ℚ
  losses_pnl : List ℚ
deriving DecidableEq, Repr

/-- `PositionStatistics::default`. -/
def PositionStatistics.default : PositionStatistics :=
  { total_opened := 0, total_closed := 0, total_cancelled := 0, total_wins := 0,
    total_losses := 0, total_pnl := 0, largest_win := 0, largest_loss := 0,
    average_win := 0, average_loss := 0, win_rate := 0, wins_pnl := [], losses_pnl := [] }

/-- `PositionStatistics::calculate_averages`. -/
def PositionStatistics.calculate_averages (s : PositionStatistics) : PositionStatistics :=
  let s := if s.wins_pnl ≠ [] then
      { s with average_win := s.wins_pnl.sum / (s.wins_pnl.length : ℚ) } else s
  let s := if s.losses_pnl ≠ [] then
      { s with average_loss := s.losses_pnl.sum / (s.losses_pnl.length : ℚ) } else s
  let total_trades := s.total_wins + s.total_losses
  if total_trades > 0 then
    { s with win_rate := (s.total_wins : ℚ) / (total_trades : ℚ) } else s

/-- `PositionStatistics::update_with_closed_position`. -/
def PositionStatistics.update_with_closed_position (s : PositionStatistics) (pnl : ℚ) :
    PositionStatistics :=
  let s := { s with total_closed := s.total_closed + 1 }
  let s :=
    if pnl > 0 then
      let s := { s with total_wins := s.total_wins + 1, wins_pnl := s.wins_pnl ++ [pnl] }
      if pnl > s.largest_win then { s with largest_win := pnl } else s
    else if pnl < 0 then
      let s := { s with total_losses := s.total_losses + 1, losses_pnl := s.losses_pnl ++ [pnl] }
      if pnl < s.largest_loss then { s with largest_loss := pnl } else s
    else s
  ({ s with total_pnl := s.total_pnl + pnl }).calculate_averages

/-- `PositionStatistics::record_opened`. -/
def PositionStatistics.record_opened (s : PositionStatistics) : PositionStatistics :=
  { s with total_opened := s.total_opened + 1 }

/-- `OrderSide` from `interfaces/epic3_contracts.rs`. -/
inductive OrderSide where
  | Buy | Sell
deriving DecidableEq, Repr

/-- `TradeEvent` from `interfaces/epic3_contracts.rs` (fields as used by the
position manager; `id` strings are the stringified position ids). -/
inductive TradeEvent where
  | OrderPlaced (id : Nat) (symbol : String) (side : OrderSide) (quantity : ℚ) (timestamp : Int)
  | OrderFilled (id : Nat) (price : ℚ) (timestamp : Int)
  | StopLossTriggered (position_id : Nat) (price : ℚ) (timestamp : Int)
  | TakeProfitTriggered (position_id : Nat) (price : ℚ) (timestamp : Int)
  | PositionClosed (id : Nat) (pnl : ℚ) (timestamp : Int)
  | MarginCall (timestamp : Int)
deriving DecidableEq, Repr

/-- Key under which `PositionManager::log_trade_event` stores an event. -/
def TradeEvent.key : TradeEvent → Option Nat
  | .OrderPlaced id .. => some id
  | .OrderFilled id .. => some id
  | .PositionClosed id .. => some id
  | .StopLossTriggered pid .. => some pid
  | .TakeProfitTriggered pid .. => some pid
  | .MarginCall _ => none

/-- Association-list lookup (model of `DashMap::get` / `HashMap::get`). -/
def alistGet {α β : Type} [BEq α] : List (α × β) → α → Option β
  | [], _ => none
  | kv :: rest, k => if kv.1 == k then some kv.2 else alistGet rest k

/-- Association-list in-place update of an existing entry (model of
`DashMap::get_mut` followed by a mutation; keys are unique in the maps
being modelled, so updating every matching entry is equivalent). -/
def alistModify {α β : Type} [BEq α] : List (α × β) → α → (β → β) → List (α × β)
  | [], _, _ => []
  | kv :: rest, k, f =>
      if kv.1 == k then (kv.1, f kv.2) :: alistModify rest k f
      else kv :: alistModify rest k f

/-- Association-list entry-or-default update
(model of `DashMap::entry(k).or_default()` followed by a mutation). -/
def alistUpsert {α β : Type} [BEq α] (l : List (α × β)) (k : α) (d : β) (f : β → β) :
    List (α × β) :=
  if (alistGet l k).isSome then alistModify l k f else l ++ [(k, f d)]

/-- `PositionManager` from `positions/position_manager.rs`. The concurrent
`DashMap` stores are association lists (tick processing is single-threaded);
`next_id` models the `Uuid::new_v4()` id source. -/
structure PositionManager where
  positions : List (Nat × Position)
  symbol_index : List (String × List Nat)
  hierarchy_index : List (Nat × List Nat)
  statistics : List (String × PositionStatistics)
  trade_events : List (Nat × List TradeEvent)
  next_id : Nat
deriving DecidableEq, Repr

/-- `PositionManager::new`. -/
def PositionManager.new : PositionManager :=
  { positions := [], symbol_index := [], hierarchy_index := [], statistics := [],
    trade_events := [], next_id := 0 }

/-- `PositionManager::log_trade_event` (the `MarginCall` bucket keyed by the
string `margin_calls` is modelled by the `none` key being dropped; no claim
touches margin calls). -/
def PositionManager.log_trade_event (m : PositionManager) (event : TradeEvent) :
    PositionManager :=
  match event.key with
  | some k => { m with trade_events :=
      (alistUpsert m.trade_events k [] (fun es => es ++ [event])) }
  | none => m

/-- `PositionManager::get_position`. -/
def PositionManager.get_position (m : PositionManager) (id : Nat) : Option Position :=
  alistGet m.positions id

/-- `PositionManager::open_position`. Returns the new manager and the fresh id. -/
def PositionManager.open_position (m : PositionManager) (symbol : String)
    (side : PositionSide) (quantity entry_price : ℚ) (stop_loss take_profit : Option ℚ)
    (parent_id : Option Nat) (opened_at : Int) : Except String (PositionManager × Nat) :=
  if quantity ≤ 0 then .error "Quantity must be positive"
  else if entry_price ≤ 0 then .error "Entry price must be positive"
  else
    let position := Position.new_with_params m.next_id symbol side quantity entry_price
      stop_loss take_profit parent_id opened_at
    let position_id := position.id
    let m := match parent_id with
      | some pid => { m with positions :=
          (alistModify m.positions pid (fun parent => parent.add_child position_id)) }
      | none => m
    let m := { m with positions := m.positions ++ [(position_id, position)] }
    let m := { m with symbol_index :=
        (alistUpsert m.symbol_index symbol [] (fun ids => ids ++ [position_id])) }
    let m := match parent_id with
      | some pid => { m with hierarchy_index :=
          (alistUpsert m.hierarchy_index pid [] (fun ids => ids ++ [position_id])) }
      | none => m
    let m := { m with statistics :=
        (alistUpsert m.statistics symbol PositionStatistics.default (fun s => s.record_opened)) }
    let m := m.log_trade_event (.OrderPlaced position_id symbol
      (match side with | .Long => .Buy | .Short => .Sell) quantity opened_at)
    .ok ({ m with next_id := m.next_id + 1 }, position_id)

/-- `PositionManager::update_position_price` (`now` stands for the
`chrono::Utc::now().timestamp()` the source stamps on trigger events). -/
def PositionManager.update_position_price (m : PositionManager) (id : Nat)
    (new_price : ℚ) (now : Int) : Except String PositionManager :=
  match alistGet m.positions id with
  | none => .error "Position not found"
  | some position =>
    if ¬ StateValidator.can_modify position.state then .error "Cannot modify position"
    else
      let position := position.update_price new_price
      let m := { m with positions := alistModify m.positions id (fun _ => position) }
      let m := if position.is_stop_loss_triggered then
          m.log_trade_event (.StopLossTriggered id new_price now) else m
      let m := if position.is_take_profit_triggered then
          m.log_trade_event (.TakeProfitTriggered id new_price now) else m
      .ok m

/-- `PositionManager::close_position`. Returns the new manager and the
realized P&L. -/
def PositionManager.close_position (m : PositionManager) (id : Nat)
    (close_price : ℚ) (closed_at : Int) : Except String (PositionManager × ℚ) :=
  match alistGet m.positions id with
  | none => .error "Position not found"
  | some position =>
    if ¬ StateValidator.can_close position.state then .error "Cannot close position"
    else
      let (position, pnl) := position.close close_price closed_at
      let m := { m with positions := alistModify m.positions id (fun _ => position) }
      let m := { m with statistics :=
          (alistUpsert m.statistics position.symbol PositionStatistics.default
            (fun s => s.update_with_closed_position pnl)) }
      let m := m.log_trade_event (.PositionClosed id pnl closed_at)
      .ok (m, pnl)

/-- `PositionManager::partial_close_position`. Returns the new manager and
the pro-rated realized P&L. -/
def PositionManager.partial_close_position (m : PositionManager) (id : Nat)
    (close_quantity close_price : ℚ) (closed_at : Int) :
    Except String (PositionManager × ℚ) :=
  match alistGet m.positions id with
  | none => .error "Position not found"
  | some position =>
    if ¬ StateValidator.can_close position.state then .error "Cannot close position"
    else if close_quantity > position.quantity then
      .error "Close quantity exceeds position quantity"
    else
      let proRata := close_quantity / position.quantity
      let pnlPart := position.realized_pnl close_price * proRata
      let position := { position with quantity := position.quantity - close_quantity }
      let position := if position.quantity ≤ 0 then (position.close close_price closed_at).1
        else position
      let m := { m with positions := alistModify m.positions id (fun _ => position) }
      .ok (m, pnlPart)

/-! ## Bar aggregator (`crates/backtestr-core/src/aggregation/bar_aggregator.rs`) -/

/-- `AggregationRule` (the `aggregation_method` field only selects
`VolumeAggregator` options not exercised by the cascade path and is omitted). -/
structure AggregationRule where
  source_timeframe : Timeframe
  target_timeframe : Timeframe
  bars_per_aggregation : Nat
deriving DecidableEq, Repr

/-- `VolumeAggregator::aggregate_volume` from `aggregation/volume_aggregator.rs`. -/
def VolumeAggregator.aggregate_volume (bars : List Bar) : Option Int :=
  if bars.isEmpty then none
  else
    let total_volume := (bars.filterMap (fun b => b.volume)).sum
    if total_volume > 0 then some total_volume else none

/-- `VolumeAggregator::aggregate_tick_count`. -/
def VolumeAggregator.aggregate_tick_count (bars : List Bar) : Option Int :=
  if bars.isEmpty then none
  else
    let total_ticks := (bars.filterMap (fun b => b.tick_count)).sum
    if total_ticks > 0 then some total_ticks else none

/-- The `max_by(partial_cmp)` chain over a nonempty list of rationals
(finite, non-NaN prices make `partial_cmp` total). -/
def listMax (x : ℚ) (xs : List ℚ) : ℚ := xs.foldl max x

/-- The `min_by(partial_cmp)` chain. -/
def listMin (x : ℚ) (xs : List ℚ) : ℚ := xs.foldl min x

/-- `BarAggregator::aggregate_standard`. -/
def BarAggregator.aggregate_standard (source_bars : List Bar)
    (target_timeframe : Timeframe) : Option Bar :=
  match source_bars, source_bars.getLast? with
  | first_bar :: rest, some last_bar =>
    let open_ := first_bar.open_
    let close := last_bar.close
    let high := listMax first_bar.high (rest.map (fun b => b.high))
    let low := listMin first_bar.low (rest.map (fun b => b.low))
    let volume := VolumeAggregator.aggregate_volume source_bars
    let tick_count := VolumeAggregator.aggregate_tick_count source_bars
    let bar := Bar.new first_bar.symbol target_timeframe first_bar.timestamp_start
      last_bar.timestamp_end open_ high low close
    let bar := match volume with | some vol => bar.with_volume vol | none => bar
    let bar := match tick_count with | some ticks => bar.with_tick_count ticks | none => bar
    some bar
  | _, _ => none

/-- `BarAggregator::create_session_bar` (the source panics on an empty
list; it is only called with a nonempty one, so the empty case is `none`). -/
def BarAggregator.create_session_bar (source_bars : List Bar)
    (target_timeframe : Timeframe) : Option Bar :=
  match source_bars, source_bars.getLast? with
  | first_bar :: rest, some last_bar =>
    let high := listMax first_bar.high (rest.map (fun b => b.high))
    let low := listMin first_bar.low (rest.map (fun b => b.low))
    let volume := VolumeAggregator.aggregate_volume source_bars
    let tick_count := VolumeAggregator.aggregate_tick_count source_bars
    let bar := Bar.new first_bar.symbol target_timeframe first_bar.timestamp_start
      last_bar.timestamp_end first_bar.open_ high low last_bar.close
    let bar := match volume with | some vol => bar.with_volume vol | none => bar
    let bar := match tick_count with | some ticks => bar.with_tick_count ticks | none => bar
    some bar
  | _, _ => none

/-- `BarAggregator::try_aggregate_bars` for one target timeframe's rule.
`is_session_boundary` stands for `SessionManager::is_session_boundary`. -/
def BarAggregator.try_aggregate_bars (rule : AggregationRule)
    (is_session_boundary : Timeframe → Int → Bool) (pending_bars : List Bar)
    (target_timeframe : Timeframe) : Option Bar :=
  if pending_bars.length ≥ rule.bars_per_aggregation then
    BarAggregator.aggregate_standard (pending_bars.take rule.bars_per_aggregation)
      target_timeframe
  else
    match pending_bars.getLast? with
    | some last_bar =>
        if is_session_boundary target_timeframe last_bar.timestamp_end then
          BarAggregator.create_session_bar pending_bars target_timeframe
        else none
    | none => none

/-- The body of `BarAggregator::process_bar` for a single target timeframe
whose rule's `source_timeframe` matches the incoming bar (the source loops
this body over every matching rule): append the bar to the pending queue,
try to aggregate, and clear the queue on success. Returns the new pending
queue and the emitted bar, if any. -/
def BarAggregator.process_bar_step (rule : AggregationRule)
    (is_session_boundary : Timeframe → Int → Bool) (pending : List Bar) (bar : Bar) :
    List Bar × Option Bar :=
  let pending := pending ++ [bar]
  match BarAggregator.try_aggregate_bars rule is_session_boundary pending
      rule.target_timeframe with
  | some aggregated => ([], some aggregated)
  | none => (pending, none)

/-! ## Gap detector (`crates/backtestr-core/src/aggregation/gap_detector.rs`)

`chrono` calendar arithmetic on a millisecond timestamp `t`:
`naive_utc().date()` is the day number `t.fdiv 86400000` (days since the
Unix epoch, flooring), and the weekday follows from day 0 (1970-01-01)
being a Thursday. `DateTime::from_timestamp_millis` is `None` only beyond
roughly ±262000 years; that out-of-range branch is not modelled (the
engine's `i64` millisecond timestamps stay far inside it). -/

/-- `naive_utc().date()` as a day number (days since the Unix epoch). -/
def dateOfMillis (ms : Int) : Int := Int.fdiv ms 86400000

/-- `weekday()` encoded `0 = Mon, 1 = Tue, ..., 4 = Fri, 5 = Sat, 6 = Sun`. -/
def weekdayOfMillis (ms : Int) : Int := (dateOfMillis ms + 3) % 7

/-- `MarketSchedule` from `aggregation/session_manager.rs` (holidays as a
set of day numbers; `early_closes` is unused by the gap detector). -/
structure MarketSchedule where
  holidays : List Int
deriving DecidableEq, Repr

/-- `MarketSchedule::is_holiday`. -/
def MarketSchedule.is_holiday (s : MarketSchedule) (date : Int) : Bool :=
  s.holidays.contains date

/-- `GapDetector` (the `chrono::Duration` field is its millisecond count). -/
structure GapDetector where
  max_gap_duration : Int
  market_schedule : MarketSchedule
deriving DecidableEq, Repr

/-- The holiday `while` loop inside `GapDetector::is_expected_gap`: scan
`fuel` consecutive days starting at `d` for a holiday (`fuel` is the number
of loop iterations, `next_date - current_date` clamped to zero). -/
def GapDetector.holiday_scan (sched : MarketSchedule) : Nat → Int → Bool
  | 0, _ => false
  | fuel + 1, d => if sched.is_holiday d then true else GapDetector.holiday_scan sched fuel (d + 1)

/-- `GapDetector::is_expected_gap`. -/
def GapDetector.is_expected_gap (g : GapDetector) (prev_end_ms next_start_ms : Int) : Bool :=
  if weekdayOfMillis prev_end_ms == 4 &&
     (weekdayOfMillis next_start_ms == 6 || weekdayOfMillis next_start_ms == 0) then
    true
  else
    GapDetector.holiday_scan g.market_schedule
      (dateOfMillis next_start_ms - dateOfMillis prev_end_ms).toNat
      (dateOfMillis prev_end_ms)

/-- `GapDetector::is_gap`. -/
def GapDetector.is_gap (g : GapDetector) (prev_bar next_bar : Bar) : Bool :=
  let gap_duration_ms := next_bar.timestamp_start - prev_bar.timestamp_end
  if gap_duration_ms > g.max_gap_duration then
    ! g.is_expected_gap prev_bar.timestamp_end next_bar.timestamp_start
  else false

/-! ## RSI (`crates/backtestr-core/src/indicators/momentum/rsi.rs`) -/

/-- The `RSI` indicator state. -/
structure RSI where
  period : Nat
  gains : List ℚ
  losses : List ℚ
  avg_gain : Option ℚ
  avg_loss : Option ℚ
  previous_close : Option ℚ
  current_value : Option ℚ
deriving DecidableEq, Repr

/-- `RSI::new`. -/
def RSI.new (period : Nat) : RSI :=
  { period := period, gains := [], losses := [], avg_gain := none, avg_loss := none,
    previous_close := none, current_value := none }

/-- `RSI::warm_up_period`. -/
def RSI.warm_up_period (s : RSI) : Nat := s.period + 1

/-- The queue maintenance inside `RSI::update`: push the new gain and loss,
then pop the front of both queues when the gain queue exceeds `period`. -/
def RSI.queuesAfterPush (s : RSI) (gain loss : ℚ) : List ℚ × List ℚ :=
  let gains := s.gains ++ [gain]
  let losses := s.losses ++ [loss]
  if gains.length > s.period then (gains.drop 1, losses.drop 1) else (gains, losses)

/-- The Wilder smoothing step inside `RSI::update`:
`(prev_avg * (period − 1) + x) / period`. The `(period - 1)` is a `usize`
subtraction in the source, identical to the ℚ form for every `period ≥ 1`
(the source would panic at `period = 0`, which no constructor call
produces). -/
def wilderStep (period : Nat) (prev_avg x : ℚ) : ℚ :=
  (prev_avg * ((period : ℚ) - 1) + x) / (period : ℚ)

/-- The value branch of `RSI::update`: `100` when the average loss is zero,
else `0` when the average gain is zero, else `100 − 100/(1 + rs)` with
`rs = avg_gain / avg_loss`. -/
def rsiValue (avg_gain avg_loss : ℚ) : ℚ :=
  if avg_loss = 0 then 100
  else if avg_gain = 0 then 0
  else 100 - (100 / (1 + avg_gain / avg_loss))

/-- `RSI::update` on the bar's close (the only bar field it reads),
assembled from the named pieces above exactly as in the source: no value
until a previous close exists; gain/loss from the change; bounded queues;
on a full gain queue, seed the averages with the simple means of the
queued gains/losses or advance them by Wilder smoothing, and emit
`rsiValue` of the averages. -/
def RSI.update (s : RSI) (close : ℚ) : RSI × Option ℚ :=
  match s.previous_close with
  | some prev =>
    let change := close - prev
    let gain := max change 0
    let loss := max (-change) 0
    let gl := s.queuesAfterPush gain loss
    let gains := gl.1
    let losses := gl.2
    if gains.length == s.period then
      let avg_gain := match s.avg_gain with
        | some prev_avg_gain => wilderStep s.period prev_avg_gain gain
        | none => gains.sum / (s.period : ℚ)
      let avg_loss := match s.avg_loss with
        | some prev_avg_loss => wilderStep s.period prev_avg_loss loss
        | none => losses.sum / (s.period : ℚ)
      let rsi := rsiValue avg_gain avg_loss
      ({ s with gains := gains, losses := losses, avg_gain := some avg_gain,
                avg_loss := some avg_loss, previous_close := some close,
                current_value := some rsi },
       some rsi)
    else
      ({ s with gains := gains, losses := losses, previous_close := some close }, none)
  | none => ({ s with previous_close := some close }, none)

/-- Driver: feed a list of closes through `RSI::update`, collecting the
outputs in order. -/
def RSI.run (s : RSI) : List ℚ → RSI × List (Option ℚ)
  | [] => (s, [])
  | c :: cs =>
      let (s', o) := s.update c
      let (s'', os) := s'.run cs
      (s'', o :: os)

/-! ## MTF state manager (`crates/backtestr-core/src/mtf/state_manager.rs`) -/

/-- `MTFConfig`. -/
structure MTFConfig where
  bar_history_limit : Nat
  max_symbols : Nat
  max_memory_mb : Nat
  enabled_timeframes : List Timeframe
deriving DecidableEq, Repr

/-- `MTFConfig::default` (with `Timeframe::all()`). -/
def MTFConfig.default : MTFConfig :=
  { bar_history_limit := 1000, max_symbols := 10, max_memory_mb := 1000,
    enabled_timeframes := [.M1, .M5, .M15, .H1, .H4, .D1] }

/-- `SymbolMTFState`. -/
structure SymbolMTFState where
  symbol : String
  current_tick : Option Tick
  timeframes : List (Timeframe × TimeframeState)
  last_update : Int
deriving DecidableEq, Repr

/-- `SymbolMTFState::new`. -/
def SymbolMTFState.new (symbol : String) (timeframes : List Timeframe)
    (history_limit : Nat) : SymbolMTFState :=
  { symbol := symbol,
    current_tick := none,
    timeframes :=
      (timeframes.map (fun tf => (tf, TimeframeState.with_history_limit tf history_limit))),
    last_update := 0 }

/-- `SymbolMTFState::process_tick`: update the last tick, then push the tick
through every per-timeframe state, collecting the completed bars. -/
def SymbolMTFState.process_tick (s : SymbolMTFState) (timestamp : Int) (price : ℚ)
    (volume : Int) : SymbolMTFState × List Bar :=
  let s := { s with
    current_tick := (some (Tick.new_with_millis s.symbol timestamp price price)),
    last_update := timestamp }
  let step := fun (acc : List (Timeframe × TimeframeState) × List Bar)
      (pair : Timeframe × TimeframeState) =>
    let (st', emitted) := pair.2.process_tick s.symbol timestamp price volume
    (acc.1 ++ [(pair.1, st')], acc.2 ++ emitted.toList)
  let (tfs, bars) := s.timeframes.foldl step ([], [])
  ({ s with timeframes := tfs }, bars)

/-- `SymbolMTFState::get_all_partial_bars`: the in-progress bar of every
timeframe. -/
def SymbolMTFState.all_inprogress_bars (s : SymbolMTFState) :
    List (Timeframe × Option PartialBar) :=
  s.timeframes.map (fun p => (p.1, p.2.current_bar))

/-- `MTFStateManager`. -/
structure MTFStateManager where
  states : List (String × SymbolMTFState)
  config : MTFConfig
deriving DecidableEq, Repr

/-- `MTFStateManager::with_default_config`. -/
def MTFStateManager.with_default_config : MTFStateManager :=
  { states := [], config := MTFConfig.default }

/-- `MTFStateManager::get_all_symbols`. -/
def MTFStateManager.get_all_symbols (m : MTFStateManager) : List String :=
  m.states.map (fun p => p.1)

/-- `MTFStateManager::process_tick`: the capacity check, the
`entry().or_insert_with(SymbolMTFState::new)` step, the mid-price and
tick-volume computation, and the per-symbol fan-out. The `Err` case leaves
the manager untouched. -/
def MTFStateManager.process_tick (m : MTFStateManager) (tick : Tick) :
    Except String (MTFStateManager × List Bar) :=
  if (alistGet m.states tick.symbol).isNone ∧
      m.states.length ≥ m.config.max_symbols then
    .error "Maximum symbols reached"
  else
    let symbol_state := match alistGet m.states tick.symbol with
      | some st => st
      | none => SymbolMTFState.new tick.symbol m.config.enabled_timeframes
          m.config.bar_history_limit
    let price := (tick.bid + tick.ask) / 2
    let volume := tick.bid_size.getD 0 + tick.ask_size.getD 0
    let (st', bars) := symbol_state.process_tick tick.timestamp price volume
    let states := if (alistGet m.states tick.symbol).isSome then
        alistModify m.states tick.symbol (fun _ => st')
      else m.states ++ [(tick.symbol, st')]
    .ok ({ m with states := states }, bars)

/-! ## Persistence (`crates/backtestr-core/src/persistence/`) -/

/-- `CHECKPOINT_VERSION` from `persistence/serialization.rs`. -/
def CHECKPOINT_VERSION : Nat := 1

/-- `PartialBarSnapshot` from `persistence/serialization.rs`. -/
structure PartialBarSnapshot where
  symbol : String
  timeframe : Timeframe
  open_ : ℚ
  high : ℚ
  low : ℚ
  close : ℚ
  volume : Int
  tick_count : Nat
  start_time : Int
  last_update : Int
deriving DecidableEq, Repr

/-- `SymbolMTFStateSnapshot` from `persistence/serialization.rs`. -/
structure SymbolMTFStateSnapshot where
  symbol : String
  timeframe_bars : List (Timeframe × Option Bar)
  bar_counts : List (Timeframe × Nat)
  last_tick_timestamp : Int
deriving DecidableEq, Repr

/-- `MTFStateSnapshot` from `persistence/serialization.rs` (its
`partial_bars` field is named `inprogress_bars` here). -/
structure MTFStateSnapshot where
  current_tick : Option Tick
  symbol_states : List (String × SymbolMTFStateSnapshot)
  inprogress_bars : List ((String × Timeframe) × PartialBarSnapshot)
  completed_bar_ids : List ((String × Timeframe) × List Int)
  last_processed_timestamp : Int
deriving DecidableEq, Repr

/-- `IndicatorSnapshot` from `persistence/serialization.rs`. -/
structure IndicatorSnapshot where
  name : String
  timeframe : Timeframe
  values : List ℚ
  parameters : List (String × ℚ)
  last_update : Int
deriving DecidableEq, Repr

/-- `CheckpointMetadata` from `persistence/serialization.rs`. -/
structure CheckpointMetadata where
  created_at : Int
  backtest_id : String
  symbol_count : Nat
  total_bars : Nat
  engine_version : String
deriving DecidableEq, Repr

/-- `CheckpointData` from `persistence/serialization.rs` (`checksum` is
`serde(skip)`: never serialized, always 0 in a freshly built checkpoint). -/
structure CheckpointData where
  version : Nat
  timestamp : Int
  tick_count : Nat
  mtf_state : MTFStateSnapshot
  indicator_states : List (String × IndicatorSnapshot)
  metadata : CheckpointMetadata
  checksum : Nat
deriving DecidableEq, Repr

/-- `SymbolMTFState::to_snapshot`: the source is a stub that discards the
live state (`symbol: String::new()`, empty maps, zero timestamp — each
field carries a `TODO: Implement` comment in the source). -/
def SymbolMTFState.to_snapshot (_s : SymbolMTFState) : SymbolMTFStateSnapshot :=
  { symbol := "", timeframe_bars := [], bar_counts := [], last_tick_timestamp := 0 }

/-- `MTFStateManager::get_internal_partial_bars`: every in-progress bar of
every symbol. -/
def MTFStateManager.get_internal_inprogress_bars (m : MTFStateManager) :
    List ((String × Timeframe) × PartialBar) :=
  m.states.flatMap (fun p =>
    p.2.all_inprogress_bars.filterMap (fun q =>
      q.2.map (fun pb => ((p.1, q.1), pb))))

/-- `MTFStateManager::create_snapshot` (`now` stands for
`chrono::Utc::now().timestamp_millis()`). `current_tick`,
`completed_bar_ids` and `last_processed_timestamp` come from the
`get_internal_*` helpers, which are `TODO` stubs returning `None`, an empty
map and `0` respectively. -/
def MTFStateManager.create_snapshot (m : MTFStateManager) (now : Int) : MTFStateSnapshot :=
  { current_tick := none,
    symbol_states := m.states.map (fun p => (p.1, p.2.to_snapshot)),
    inprogress_bars := m.get_internal_inprogress_bars.map (fun q =>
      (q.1,
       { symbol := q.1.1, timeframe := q.1.2, open_ := q.2.open_, high := q.2.high,
         low := q.2.low, close := q.2.close, volume := q.2.volume,
         tick_count := q.2.tick_count,
         start_time := now - q.2.milliseconds_elapsed,
         last_update := now })),
    completed_bar_ids := [],
    last_processed_timestamp := 0 }

/-- `MTFStateManager::restore_from_snapshot`: the source iterates the
snapshot calling `restore_symbol_state`, `restore_partial_bar`,
`set_completed_bar_ids`, `set_last_timestamp` and `set_current_tick` —
every one of which is a `TODO: Implement` no-op — so the manager is
returned unchanged. -/
def MTFStateManager.restore_from_snapshot (m : MTFStateManager)
    (_snapshot : MTFStateSnapshot) : MTFStateManager :=
  m

/-- `MTFStateManager::restore_indicators`: a `TODO: Implement` no-op. -/
def MTFStateManager.restore_indicators (m : MTFStateManager)
    (_indicators : List (String × IndicatorSnapshot)) : MTFStateManager :=
  m

/-- `calculate_total_bars` from `persistence/checkpoint_manager.rs`. -/
def calculate_total_bars (snapshot : MTFStateSnapshot) : Nat :=
  (snapshot.symbol_states.flatMap (fun p => p.2.bar_counts.map (fun q => q.2))).sum

/-- The `CheckpointData` built by `CheckpointManager::create_checkpoint`
before serialization (`now` stands for the two `Utc::now()` calls,
`backtest_id` for the manager's random id, `engine_version` for
`CARGO_PKG_VERSION`; `indicator_states` is `Default::default()` — a
`TODO` in the source). -/
def CheckpointManager.build_checkpoint_data (state : MTFStateManager) (tick_count : Nat)
    (now : Int) (backtest_id : String) (engine_version : String) : CheckpointData :=
  let snapshot := state.create_snapshot now
  { version := CHECKPOINT_VERSION,
    timestamp := now,
    tick_count := tick_count,
    mtf_state := snapshot,
    indicator_states := [],
    metadata :=
      { created_at := now, backtest_id := backtest_id,
        symbol_count := snapshot.symbol_states.length,
        total_bars := calculate_total_bars snapshot,
        engine_version := engine_version },
    checksum := 0 }

/-- The pure tail of `StateRecovery::load_checkpoint` after a checkpoint
has been decoded: build a default-config manager, run the (no-op) restore
steps, and pair it with the stored `tick_count`. -/
def StateRecovery.restore_from_checkpoint_data (checkpoint : CheckpointData) :
    MTFStateManager × Nat :=
  let state := MTFStateManager.with_default_config
  let state := state.restore_from_snapshot checkpoint.mtf_state
  let state := state.restore_indicators checkpoint.indicator_states
  (state, checkpoint.tick_count)

/-- A byte is a `Nat`; a checkpoint file is its byte list. `u64` from 8
little-endian bytes (`u64::from_le_bytes`). -/
def u64OfLeBytes (bs : List Nat) : Nat :=
  bs.foldr (fun b acc => b + 256 * acc) 0

/-- `split_at(len - 8)` guarded by the `len < 8` bail in
`StateRecovery::load_checkpoint` / `validate_checkpoint`. -/
def splitChecksumTail (file_data : List Nat) : Option (List Nat × List Nat) :=
  if file_data.length < 8 then none
  else some (file_data.take (file_data.length - 8), file_data.drop (file_data.length - 8))

/-- The external codec the persistence layer delegates to:
`zstd::decode_all` (fallible), `calculate_checksum` (XxHash64 from the
`twox_hash` crate) and `bincode::deserialize` (fallible). The recovery
logic under verification is parametric in all three. -/
structure Codec where
  decompress : List Nat → Option (List Nat)
  checksum : List Nat → Nat
  deserialize : List Nat → Option CheckpointData

/-- `StateRecovery::validate_checkpoint`: split off the trailing 8-byte
checksum, decompress, recompute and compare the checksum, deserialize,
and check the version. -/
def StateRecovery.validate_checkpoint (c : Codec) (file_data : List Nat) : Bool :=
  match splitChecksumTail file_data with
  | none => false
  | some (compressed, checksum_bytes) =>
    let stored_checksum := u64OfLeBytes checksum_bytes
    match c.decompress compressed with
    | none => false
    | some decompressed =>
      if c.checksum decompressed ≠ stored_checksum then false
      else
        match c.deserialize decompressed with
        | none => false
        | some checkpoint => checkpoint.version == CHECKPOINT_VERSION

/-- `StateRecovery::load_checkpoint` (errors collapsed to `none`): the same
pipeline as `validate_checkpoint`, ending in the (no-op) state restore. -/
def StateRecovery.load_checkpoint (c : Codec) (file_data : List Nat) :
    Option (MTFStateManager × Nat) :=
  match splitChecksumTail file_data with
  | none => none
  | some (compressed, checksum_bytes) =>
    let stored_checksum := u64OfLeBytes checksum_bytes
    match c.decompress compressed with
    | none => none
    | some decompressed =>
      if c.checksum decompressed ≠ stored_checksum then none
      else
        match c.deserialize decompressed with
        | none => none
        | some checkpoint =>
          if checkpoint.version ≠ CHECKPOINT_VERSION then none
          else some (StateRecovery.restore_from_checkpoint_data checkpoint)

/-- A candidate checkpoint file: its bytes and its modification time. -/
structure CandidateFile where
  bytes : List Nat
  mtime : Int
deriving DecidableEq

/-- Insertion step of `sort_by(|a, b| b.1.cmp(a.1))`: modification time,
newest first. -/
def insertByMtimeDesc (x : CandidateFile) : List CandidateFile → List CandidateFile
  | [] => [x]
  | y :: ys => if x.mtime ≥ y.mtime then x :: y :: ys else y :: insertByMtimeDesc x ys

/-- Sort candidates by modification time, newest first. -/
def sortByMtimeDesc (files : List CandidateFile) : List CandidateFile :=
  files.foldr insertByMtimeDesc []

/-- `StateRecovery::find_latest_valid_checkpoint`: newest first, first
candidate that validates. -/
def StateRecovery.find_latest_valid_checkpoint (c : Codec) (files : List CandidateFile) :
    Option (List Nat) :=
  ((sortByMtimeDesc files).find?
    (fun f => StateRecovery.validate_checkpoint c f.bytes)).map (fun f => f.bytes)

/-- `StateRecovery::recover_state`: `None` when no candidate validates. -/
def StateRecovery.recover_state (c : Codec) (files : List CandidateFile) :
    Option (MTFStateManager × Nat) :=
  match StateRecovery.find_latest_valid_checkpoint c files with
  | none => none
  | some file_data => StateRecovery.load_checkpoint c file_data

/-! ## Operation traces over the position manager

Reachable position-manager states: those produced from
`PositionManager::new` by any sequence of the public mutating operations. -/

/-- One public mutating call on the position manager. -/
inductive MgrOp where
  | openPos (symbol : String) (side : PositionSide) (quantity entry_price : ℚ)
      (stop_loss take_profit : Option ℚ) (parent_id : Option Nat) (opened_at : Int)
  | closePos (id : Nat) (price : ℚ) (closed_at : Int)
  | partialClosePos (id : Nat) (close_quantity close_price : ℚ) (closed_at : Int)
  | updatePrice (id : Nat) (price : ℚ) (now : Int)
deriving DecidableEq

/-- Apply one operation; a call that returns `Err` leaves the manager
unchanged (the source mutates nothing before its early returns). -/
def PositionManager.applyOp (m : PositionManager) : MgrOp → PositionManager
  | .openPos symbol side quantity entry_price stop_loss take_profit parent_id opened_at =>
      match m.open_position symbol side quantity entry_price stop_loss take_profit
          parent_id opened_at with
      | .ok (m', _) => m'
      | .error _ => m
  | .closePos id price closed_at =>
      match m.close_position id price closed_at with
      | .ok (m', _) => m'
      | .error _ => m
  | .partialClosePos id close_quantity close_price closed_at =>
      match m.partial_close_position id close_quantity close_price closed_at with
      | .ok (m', _) => m'
      | .error _ => m
  | .updatePrice id price now =>
      match m.update_position_price id price now with
      | .ok m' => m'
      | .error _ => m

/-- Apply a sequence of operations from a starting manager. -/
def PositionManager.applyOps (m : PositionManager) (ops : List MgrOp) : PositionManager :=
  ops.foldl PositionManager.applyOp m

/-! ## Concrete fixtures used by witness and counterexample theorems -/

/-- A position sitting in the `Pending` state (as a raw store entry; the
manager itself never constructs one — see the claim on reachable states). -/
def pendingPositionExample : Position :=
  { id := 0, symbol := "EURUSD", side := .Long, quantity := 1, entry_price := 1,
    current_price := 1, stop_loss := none, take_profit := none, state := .Pending,
    opened_at := 0, closed_at := none, parent_id := none, child_ids := [], metadata := [] }

/-- A manager whose store holds `pendingPositionExample`. -/
def mgrPendingExample : PositionManager :=
  { PositionManager.new with positions := [(0, pendingPositionExample)], next_id := 1 }

/-- A manager with one freshly opened long position (id 0):
100000 EURUSD at entry price 2. -/
def mgrOneOpenExample : PositionManager :=
  match PositionManager.new.open_position "EURUSD" .Long 100000 2 none none none 1 with
  | .ok (m, _) => m
  | .error _ => PositionManager.new

/-- The EURUSD tick at 1704067230000 with bid 1.0920 / ask 1.0922 (scenario
E1 of the specification). -/
def exampleTick : Tick :=
  Tick.new_with_millis "EURUSD" 1704067230000 (10920/10000 : ℚ) (10922/10000 : ℚ)

/-- The engine state reached from a fresh default-config manager by
processing `exampleTick`. -/
def exampleManagerS : MTFStateManager :=
  match MTFStateManager.with_default_config.process_tick exampleTick with
  | .ok (m, _) => m
  | .error _ => MTFStateManager.with_default_config

/-- A tick violating the spec's ingestion contract three ways over:
`bid > ask`, negative timestamp, and it is processed unvalidated. -/
def invalidTickExample : Tick :=
  Tick.new_with_millis "EURUSD" (-5) (2 : ℚ) (1 : ℚ)

/-- The OHLC ordering facts an in-progress bar maintains. -/
def pbOHLCInv (pb : PartialBar) : Prop :=
  pb.low ≤ pb.open_ ∧ pb.low ≤ pb.close ∧ pb.open_ ≤ pb.high ∧ pb.close ≤ pb.high

/-- Inductive invariant of a per-timeframe state: whenever an in-progress
bar exists, its OHLC fields are ordered and the stored window is exactly
one timeframe duration wide. -/
def tfStateInv (tf : Timeframe) (s : TimeframeState) : Prop :=
  s.timeframe = tf ∧
  ∀ pb, s.current_bar = some pb →
    (pbOHLCInv pb ∧ s.bar_end_time = s.bar_start_time + tf.duration_ms)

/-- The 2-of-M1-to-M5 aggregation rule used by witness theorems. -/
def aggRuleExample : AggregationRule :=
  { source_timeframe := .M1, target_timeframe := .M5, bars_per_aggregation := 2 }

/-- First source bar of the aggregation witness. -/
def aggBarA : Bar :=
  ((Bar.new "EURUSD" .M1 0 60000 1 5 1 2).with_volume 10).with_tick_count 3

/-- Second source bar of the aggregation witness. -/
def aggBarB : Bar :=
  ((Bar.new "EURUSD" .M1 60000 120000 2 4 0 3).with_volume 20).with_tick_count 4

/-- An MTF manager whose capacity is already exhausted
(`max_symbols = 0`). -/
def mgrZeroCapacityExample : MTFStateManager :=
  { states := [], config := { MTFConfig.default with max_symbols := 0 } }

/-- An empty MTF snapshot (used by checkpoint fixtures). -/
def snapshotEmptyExample : MTFStateSnapshot :=
  { current_tick := none, symbol_states := [], inprogress_bars := [],
    completed_bar_ids := [], last_processed_timestamp := 0 }

/-- A version-1 checkpoint fixture. -/
def checkpointDataV1Example : CheckpointData :=
  { version := 1, timestamp := 0, tick_count := 42, mtf_state := snapshotEmptyExample,
    indicator_states := [],
    metadata := { created_at := 0, backtest_id := "b", symbol_count := 0, total_bars := 0,
                  engine_version := "0.1.0" },
    checksum := 0 }

/-- A checkpoint fixture with an unsupported version (2). -/
def checkpointDataV2Example : CheckpointData :=
  { checkpointDataV1Example with version := 2 }

/-- A concrete codec for witness theorems: identity compression, byte-sum
checksum, and a two-point deserializer. -/
def codecExample : Codec :=
  { decompress := fun bs => some bs,
    checksum := fun bs => bs.sum,
    deserialize := fun bs =>
      if bs = [7] then some checkpointDataV1Example
      else if bs = [9] then some checkpointDataV2Example
      else none }

/-- A candidate whose trailing checksum (8 = little-endian `[8,0,...,0]`)
differs from the byte-sum (7) of its payload `[7]`. -/
def fileBadChecksumExample : List Nat := [7, 8, 0, 0, 0, 0, 0, 0, 0]

/-- A candidate whose checksum matches but whose payload `[9]` deserializes
to the version-2 checkpoint. -/
def fileBadVersionExample : List Nat := [9, 9, 0, 0, 0, 0, 0, 0, 0]

/-- A fully valid candidate: payload `[7]`, checksum 7, version 1. -/
def fileGoodExample : List Nat := [7, 7, 0, 0, 0, 0, 0, 0, 0]

/-- Inductive invariant of the RSI state after consuming `k` closes. -/
def RSIInv (period k : Nat) (s : RSI) : Prop :=
  s.period = period ∧
  (s.previous_close.isSome = true ↔ 1 ≤ k) ∧
  s.gains.length = min (k - 1) period ∧
  s.losses.length = s.gains.length ∧
  (∀ x ∈ s.gains, 0 ≤ x) ∧ (∀ x ∈ s.losses, 0 ≤ x) ∧
  (s.avg_gain.isSome = true ↔ period + 1 ≤ k) ∧
  (s.avg_loss.isSome = true ↔ period + 1 ≤ k) ∧
  (∀ g, s.avg_gain = some g → 0 ≤ g) ∧ (∀ l, s.avg_loss = some l → 0 ≤ l)

/-- A position state the manager's own constructors and transitions can
produce: `Open` or `Closed`. -/
def livePosition (p : Position) : Prop :=
  p.state = PositionState.Open ∨ p.state = PositionState.Closed

/-- The millisecond timestamp falls on a Friday (UTC), in the weekday
encoding of `weekdayOfMillis`. -/
def isFridayMillis (ms : Int) : Prop := weekdayOfMillis ms = 4

/-- The millisecond timestamp falls on a Sunday (UTC). -/
def isSundayMillis (ms : Int) : Prop := weekdayOfMillis ms = 6

/-- The millisecond timestamp falls on a Monday (UTC). -/
def isMondayMillis (ms : Int) : Prop := weekdayOfMillis ms = 0

/-! ## Theorems -/

theorem log_trade_event_positions (m : PositionManager) (e : TradeEvent) :
    (m.log_trade_event e).positions = m.positions := by
  unfold PositionManager.log_trade_event
  cases e.key <;> rfl

theorem alistGet_mem {α β : Type} [BEq α] {l : List (α × β)} {k : α} {v : β}
    (h : alistGet l k = some v) : ∃ kv ∈ l, kv.2 = v := by
  induction l with
  | nil => simp [alistGet] at h
  | cons kv0 rest ih =>
    by_cases hk : kv0.1 == k
    · simp only [alistGet, if_pos hk, Option.some_inj] at h
      exact ⟨kv0, List.mem_cons_self kv0 rest, h⟩
    · simp only [alistGet, if_neg hk] at h
      rcases ih h with ⟨kv1, hkv1, hv⟩
      exact ⟨kv1, List.mem_cons_of_mem kv0 hkv1, hv⟩

theorem mem_alistModify_preserves {l : List (Nat × Position)} {k : Nat}
    {f : Position → Position} (hl : ∀ kv ∈ l, livePosition kv.2)
    (hf : ∀ p, livePosition p → livePosition (f p)) :
    ∀ kv ∈ alistModify l k f, livePosition kv.2 := by
  induction l with
  | nil => intro kv hkv; simp [alistModify] at hkv
  | cons kv0 rest ih =>
    intro kv hkv
    have hl0 : livePosition kv0.2 := hl kv0 (List.mem_cons_self kv0 rest)
    have hlr : ∀ kv ∈ rest, livePosition kv.2 :=
      fun kv h => hl kv (List.mem_cons_of_mem kv0 h)
    by_cases hk : kv0.1 == k
    · rw [alistModify, if_pos hk] at hkv
      rcases List.mem_cons.1 hkv with rfl | hkv
      · exact hf _ hl0
      · exact ih hlr kv hkv
    · rw [alistModify, if_neg hk] at hkv
      rcases List.mem_cons.1 hkv with rfl | hkv
      · exact hl0
      · exact ih hlr kv hkv

theorem open_position_ok_positions {m : PositionManager} {symbol : String}
    {side : PositionSide} {quantity entry_price : ℚ} {stop_loss take_profit : Option ℚ}
    {parent_id : Option Nat} {opened_at : Int} {m' : PositionManager} {id : Nat}
    (h : m.open_position symbol side quantity entry_price stop_loss take_profit
        parent_id opened_at = .ok (m', id)) :
    ∃ base : List (Nat × Position),
      (base = m.positions ∨
        ∃ pid, base = alistModify m.positions pid
          (fun parent => parent.add_child m.next_id)) ∧
      m'.positions = base ++ [(m.next_id, Position.new_with_params m.next_id symbol side
        quantity entry_price stop_loss take_profit parent_id opened_at)] := by
  unfold PositionManager.open_position at h
  split at h
  · exact Except.noConfusion h
  split at h
  · exact Except.noConfusion h
  cases parent_id with
  | none =>
    injection h with h1
    have h2 := congrArg Prod.fst h1
    subst h2
    exact ⟨m.positions, Or.inl rfl, by rw [log_trade_event_positions]; rfl⟩
  | some pid =>
    injection h with h1
    have h2 := congrArg Prod.fst h1
    subst h2
    refine ⟨alistModify m.positions pid (fun parent => parent.add_child m.next_id),
      Or.inr ⟨pid, rfl⟩, ?_⟩
    rw [log_trade_event_positions]
    rfl

theorem close_position_ok_positions {m : PositionManager} {id : Nat} {price : ℚ}
    {closed_at : Int} {m' : PositionManager} {pnl : ℚ}
    (h : m.close_position id price closed_at = .ok (m', pnl)) :
    ∃ p, alistGet m.positions id = some p ∧
      m'.positions = alistModify m.positions id (fun _ => (p.close price closed_at).1) := by
  unfold PositionManager.close_position at h
  split at h
  · exact Except.noConfusion h
  rename_i p hget
  split at h
  · exact Except.noConfusion h
  rcases hcl : p.close price closed_at with ⟨p2, pnl2⟩
  rw [hcl] at h
  injection h with h1
  have h2 := congrArg Prod.fst h1
  subst h2
  refine ⟨p, hget, ?_⟩
  rw [log_trade_event_positions, hcl]

theorem partial_close_ok_positions {m : PositionManager} {id : Nat}
    {close_quantity close_price : ℚ} {closed_at : Int} {m' : PositionManager} {pnl : ℚ}
    (h : m.partial_close_position id close_quantity close_price closed_at = .ok (m', pnl)) :
    ∃ p, alistGet m.positions id = some p ∧
      m'.positions = alistModify m.positions id (fun _ =>
        let q := { p with quantity := p.quantity - close_quantity }
        if q.quantity ≤ 0 then (q.close close_price closed_at).1 else q) := by
  unfold PositionManager.partial_close_position at h
  split at h
  · exact Except.noConfusion h
  rename_i p hget
  split at h
  · exact Except.noConfusion h
  split at h
  · exact Except.noConfusion h
  injection h with h1
  have h2 := congrArg Prod.fst h1
  subst h2
  exact ⟨p, hget, rfl⟩

theorem update_price_ok_positions {m : PositionManager} {id : Nat} {price : ℚ}
    {now : Int} {m' : PositionManager}
    (h : m.update_position_price id price now = .ok m') :
    ∃ p, alistGet m.positions id = some p ∧
      m'.positions = alistModify m.positions id (fun _ => p.update_price price) := by
  unfold PositionManager.update_position_price at h
  split at h
  · exact Except.noConfusion h
  rename_i p hget
  split at h
  · exact Except.noConfusion h
  injection h with h1
  subst h1
  refine ⟨p, hget, ?_⟩
  split <;> split <;> simp only [log_trade_event_positions]

theorem applyOp_preserves_live (m : PositionManager) (op : MgrOp)
    (h : ∀ kv ∈ m.positions, livePosition kv.2) :
    ∀ kv ∈ (m.applyOp op).positions, livePosition kv.2 := by
  cases op with
  | openPos symbol side quantity entry_price stop_loss take_profit parent_id opened_at =>
    dsimp only [PositionManager.applyOp]
    cases hop : m.open_position symbol side quantity entry_price stop_loss take_profit
        parent_id opened_at with
    | error msg => exact h
    | ok res =>
      obtain ⟨m', id⟩ := res
      rcases open_position_ok_positions hop with ⟨base, hbase, hpos⟩
      intro kv hkv
      rw [hpos] at hkv
      rcases List.mem_append.1 hkv with hkv | hkv
      · rcases hbase with rfl | ⟨pid, rfl⟩
        · exact h kv hkv
        · refine mem_alistModify_preserves h (fun p hp => ?_) kv hkv
          unfold Position.add_child
          split
          · exact hp
          · exact hp
      · rcases List.mem_singleton.1 hkv with rfl
        exact Or.inl rfl
  | closePos id price closed_at =>
    dsimp only [PositionManager.applyOp]
    cases hop : m.close_position id price closed_at with
    | error msg => exact h
    | ok res =>
      obtain ⟨m', pnl⟩ := res
      rcases close_position_ok_positions hop with ⟨p, _, hpos⟩
      intro kv hkv
      rw [hpos] at hkv
      exact mem_alistModify_preserves h (fun q _ => Or.inr rfl) kv hkv
  | partialClosePos id close_quantity close_price closed_at =>
    dsimp only [PositionManager.applyOp]
    cases hop : m.partial_close_position id close_quantity close_price closed_at with
    | error msg => exact h
    | ok res =>
      obtain ⟨m', pnl⟩ := res
      rcases partial_close_ok_positions hop with ⟨p, hget, hpos⟩
      have hp : livePosition p := by
        rcases alistGet_mem hget with ⟨kv0, hkv0, rfl⟩
        exact h kv0 hkv0
      intro kv hkv
      rw [hpos] at hkv
      refine mem_alistModify_preserves h (fun q _ => ?_) kv hkv
      dsimp only
      split
      · exact Or.inr rfl
      · exact hp
  | updatePrice id price now =>
    dsimp only [PositionManager.applyOp]
    cases hop : m.update_position_price id price now with
    | error msg => exact h
    | ok m' =>
      rcases update_price_ok_positions hop with ⟨p, hget, hpos⟩
      have hp : livePosition p := by
        rcases alistGet_mem hget with ⟨kv0, hkv0, rfl⟩
        exact h kv0 hkv0
      intro kv hkv
      rw [hpos] at hkv
      exact @mem_alistModify_preserves m.positions id (fun _ => p.update_price price) h
        (fun q _ => hp) kv hkv

theorem applyOps_preserves_live (ops : List MgrOp) :
    ∀ (m : PositionManager), (∀ kv ∈ m.positions, livePosition kv.2) →
      ∀ kv ∈ (m.applyOps ops).positions, livePosition kv.2 := by
  induction ops with
  | nil => intro m hm; simpa [PositionManager.applyOps] using hm
  | cons op rest ih =>
    intro m hm
    have h1 := applyOp_preserves_live m op hm
    simpa [PositionManager.applyOps] using ih (m.applyOp op) h1

theorem alistGet_alistModify_self {α β : Type} [BEq α] {l : List (α × β)} {k : α} {v : β}
    (f : β → β) (h : alistGet l k = some v) :
    alistGet (alistModify l k f) k = some (f v) := by
  induction l with
  | nil => simp [alistGet] at h
  | cons kv rest ih =>
    by_cases hk : kv.1 == k
    · rw [alistGet, if_pos hk, Option.some_inj] at h
      rw [alistModify, if_pos hk, alistGet, if_pos hk, h]
    · rw [alistGet, if_neg hk] at h
      rw [alistModify, if_neg hk, alistGet, if_neg hk]
      exact ih h

/-- C3: a position state transition is accepted by `validate_transition`
iff it is one of Pending→Open, Pending→Cancelled, Open→Closed or
Open→Pending; and `close_position` on a position whose state is not `Open`
(`Pending`, `Closed` or `Cancelled`) returns the invalid-transition error
before mutating anything, so the store — and the position's state — are
unchanged. -/
theorem position_state_machine_spec :
    (∀ from_ to_ : PositionState,
        (StateValidator.validate_transition from_ to_).isOk = true ↔
          ((from_ = .Pending ∧ to_ = .Open) ∨ (from_ = .Pending ∧ to_ = .Cancelled) ∨
           (from_ = .Open ∧ to_ = .Closed) ∨ (from_ = .Open ∧ to_ = .Pending))) ∧
    (∀ (m : PositionManager) (id : Nat) (p : Position) (price : ℚ) (closed_at : Int),
        m.get_position id = some p → p.state ≠ .Open →
        m.close_position id price closed_at = .error "Cannot close position") := by
  constructor
  · intro from_ to_
    cases from_ <;> cases to_ <;> decide
  · intro m id p price closed_at hp hstate
    unfold PositionManager.get_position at hp
    unfold PositionManager.close_position
    rw [hp]
    have hcc : StateValidator.can_close p.state = false := by
      cases hps : p.state <;> simp_all [StateValidator.can_close]
    simp [hcc]

/-- Witness for C3: closing the `Pending` position of `mgrPendingExample`
is rejected. -/
theorem position_state_machine_spec_witness :
    mgrPendingExample.close_position 0 (1 : ℚ) 0 = .error "Cannot close position" :=
  position_state_machine_spec.2 mgrPendingExample 0 pendingPositionExample 1 0
    (by decide) (by decide)

/-- C9: `Position::new_with_params` (the only constructor `open_position`
calls) starts every position in state `Open` — never `Pending` — with
`current_price = entry_price`; consequently, over every sequence of
position-manager operations from a fresh manager, no stored position is
ever `Pending` or `Cancelled`, so the Pending→Open and Pending→Cancelled
transitions are unreachable for manager-created positions. -/
theorem manager_positions_never_pending :
    (∀ (id : Nat) (symbol : String) (side : PositionSide) (quantity entry_price : ℚ)
        (stop_loss take_profit : Option ℚ) (parent_id : Option Nat) (opened_at : Int),
        (Position.new_with_params id symbol side quantity entry_price stop_loss
          take_profit parent_id opened_at).state = .Open ∧
        (Position.new_with_params id symbol side quantity entry_price stop_loss
          take_profit parent_id opened_at).current_price = entry_price) ∧
    (∀ (ops : List MgrOp) (kv : Nat × Position),
        kv ∈ (PositionManager.new.applyOps ops).positions →
        kv.2.state ≠ .Pending ∧ kv.2.state ≠ .Cancelled) := by
  constructor
  · intro id symbol side quantity entry_price stop_loss take_profit parent_id opened_at
    exact ⟨rfl, rfl⟩
  · intro ops kv hkv
    have hlive := applyOps_preserves_live ops PositionManager.new (by simp [PositionManager.new])
      kv hkv
    rcases hlive with hs | hs <;> rw [hs] <;> exact ⟨by simp, by simp⟩

/-- Witness for C9: after one `open_position`, the stored position is in
neither `Pending` nor `Cancelled`. -/
theorem manager_positions_never_pending_witness :
    ((0 : Nat), Position.new_with_params 0 "EURUSD" .Long 1 1 none none none 0).2.state ≠
        PositionState.Pending ∧
      ((0 : Nat), Position.new_with_params 0 "EURUSD" .Long 1 1 none none none 0).2.state ≠
        PositionState.Cancelled :=
  manager_positions_never_pending.2
    [MgrOp.openPos "EURUSD" .Long 1 1 none none none 0]
    (0, Position.new_with_params 0 "EURUSD" .Long 1 1 none none none 0)
    (by decide)

/-- C10: a successful `partial_close_position(id, qty, price, at)`
decrements the position's quantity by exactly `qty` and returns the
realized P&L pro-rated by `qty / quantity` (the pre-call quantity), while
leaving the per-symbol statistics and the trade-event log unchanged — even
when the remaining quantity reaches zero and the position transitions to
`Closed`. -/
theorem partial_close_frame (m : PositionManager) (id : Nat) (p : Position)
    (close_quantity close_price : ℚ) (closed_at : Int)
    (hget : m.get_position id = some p)
    (hopen : p.state = PositionState.Open)
    (hq : close_quantity ≤ p.quantity) :
    ∃ m' p',
      m.partial_close_position id close_quantity close_price closed_at =
        .ok (m', p.realized_pnl close_price * (close_quantity / p.quantity)) ∧
      m'.get_position id = some p' ∧
      p'.quantity = p.quantity - close_quantity ∧
      m'.statistics = m.statistics ∧
      m'.trade_events = m.trade_events ∧
      (close_quantity = p.quantity → p'.state = PositionState.Closed) ∧
      (close_quantity < p.quantity → p'.state = PositionState.Open) := by
  unfold PositionManager.get_position at hget
  have hngt : ¬ close_quantity > p.quantity := not_lt.2 hq
  refine
    ⟨{ m with positions := alistModify m.positions id (fun _ =>
        if p.quantity - close_quantity ≤ 0 then
          (({ p with quantity := p.quantity - close_quantity } : Position).close
            close_price closed_at).1
        else { p with quantity := p.quantity - close_quantity }) },
      (if p.quantity - close_quantity ≤ 0 then
          (({ p with quantity := p.quantity - close_quantity } : Position).close
            close_price closed_at).1
        else { p with quantity := p.quantity - close_quantity }),
      ?_, ?_, ?_, rfl, rfl, ?_, ?_⟩
  · unfold PositionManager.partial_close_position
    rw [hget]
    dsimp only
    rw [if_neg (by simp [StateValidator.can_close, hopen]), if_neg hngt]
  · unfold PositionManager.get_position
    exact alistGet_alistModify_self _ hget
  · split
    · rfl
    · rfl
  · intro he
    rw [if_pos (by rw [he]; simp)]
    rfl
  · intro hlt
    rw [if_neg (not_le.2 (sub_pos.2 hlt))]
    exact hopen

/-- Witness for C10: partially closing 40000 of the 100000-unit long of
`mgrOneOpenExample` at price 3. -/
theorem partial_close_frame_witness :
    ∃ m' p',
      mgrOneOpenExample.partial_close_position 0 40000 (3 : ℚ) 2 =
        .ok (m', (Position.new_with_params 0 "EURUSD" .Long 100000 2 none none
          none 1).realized_pnl 3 * ((40000 : ℚ) / 100000)) ∧
      m'.get_position 0 = some p' ∧
      p'.quantity = (100000 : ℚ) - 40000 ∧
      m'.statistics = mgrOneOpenExample.statistics ∧
      m'.trade_events = mgrOneOpenExample.trade_events ∧
      ((40000 : ℚ) = 100000 → p'.state = PositionState.Closed) ∧
      ((40000 : ℚ) < 100000 → p'.state = PositionState.Open) :=
  partial_close_frame mgrOneOpenExample 0
    (Position.new_with_params 0 "EURUSD" .Long 100000 2 none none none 1)
    40000 (3 : ℚ) 2 (by decide) (by decide) (by decide)

theorem holiday_scan_iff (sched : MarketSchedule) (n : Nat) (d : Int) :
    GapDetector.holiday_scan sched n d = true ↔
      ∃ e : Int, d ≤ e ∧ e < d + n ∧ sched.is_holiday e = true := by
  induction n generalizing d with
  | zero =>
    rw [GapDetector.holiday_scan]
    constructor
    · intro h; exact absurd h (by simp)
    · rintro ⟨e, h1, h2, _⟩; omega
  | succ n ih =>
    rw [GapDetector.holiday_scan]
    by_cases hd : sched.is_holiday d
    · rw [if_pos hd]
      refine ⟨fun _ => ⟨d, le_refl d, by omega, hd⟩, fun _ => rfl⟩
    · rw [if_neg hd, ih]
      constructor
      · rintro ⟨e, h1, h2, h3⟩
        exact ⟨e, by omega, by omega, h3⟩
      · rintro ⟨e, h1, h2, h3⟩
        refine ⟨e, ?_, by omega, h3⟩
        rcases eq_or_lt_of_le h1 with rfl | hlt
        · exact absurd h3 hd
        · omega

theorem is_expected_gap_iff (g : GapDetector) (prev_end_ms next_start_ms : Int) :
    g.is_expected_gap prev_end_ms next_start_ms = true ↔
      ((isFridayMillis prev_end_ms ∧
          (isSundayMillis next_start_ms ∨ isMondayMillis next_start_ms)) ∨
       ∃ d : Int, dateOfMillis prev_end_ms ≤ d ∧ d < dateOfMillis next_start_ms ∧
         g.market_schedule.is_holiday d = true) := by
  rw [GapDetector.is_expected_gap]
  split
  · next hw =>
    simp only [Bool.and_eq_true, Bool.or_eq_true, beq_iff_eq] at hw
    exact ⟨fun _ => Or.inl ⟨hw.1, hw.2.imp id id⟩, fun _ => rfl⟩
  · next hw =>
    rw [holiday_scan_iff]
    constructor
    · rintro ⟨e, h1, h2, h3⟩
      exact Or.inr ⟨e, h1, by omega, h3⟩
    · rintro (hL | ⟨e, h1, h2, h3⟩)
      · refine absurd ?_ hw
        simp only [Bool.and_eq_true, Bool.or_eq_true, beq_iff_eq]
        exact ⟨hL.1, hL.2.imp id id⟩
      · exact ⟨e, h1, by omega, h3⟩

/-- C7: for consecutive bars A and B, `is_gap(A, B)` returns `true` iff the
time from A's end to B's start exceeds `max_gap_duration` AND the gap is
not expected, where the gap is expected iff A ends on a Friday and B starts
on a Sunday or Monday (UTC), or some date d with
`date(A.end) ≤ d < date(B.start)` is marked as a holiday in the market
schedule. -/
theorem gap_detector_is_gap_spec (g : GapDetector) (A B : Bar) :
    g.is_gap A B = true ↔
      (B.timestamp_start - A.timestamp_end > g.max_gap_duration ∧
       ¬ ((isFridayMillis A.timestamp_end ∧
             (isSundayMillis B.timestamp_start ∨ isMondayMillis B.timestamp_start)) ∨
          ∃ d : Int, dateOfMillis A.timestamp_end ≤ d ∧ d < dateOfMillis B.timestamp_start ∧
            g.market_schedule.is_holiday d = true)) := by
  rw [GapDetector.is_gap]
  split
  · next hgt =>
    rw [Bool.not_eq_true']
    rw [← Bool.not_eq_true (g.is_expected_gap A.timestamp_end B.timestamp_start)]
    rw [is_expected_gap_iff]
    exact ⟨fun h => ⟨hgt, h⟩, fun h => h.2⟩
  · next hgt =>
    constructor
    · intro h; exact absurd h (by simp)
    · intro h; exact absurd h.1 hgt

theorem le_listMax (x : ℚ) (xs : List ℚ) : x ≤ listMax x xs := by
  induction xs generalizing x with
  | nil => simp [listMax]
  | cons y ys ih =>
    exact le_trans (le_max_left x y) (ih (max x y))

theorem mem_le_listMax {y : ℚ} (x : ℚ) (xs : List ℚ) (h : y ∈ xs) : y ≤ listMax x xs := by
  induction xs generalizing x with
  | nil => cases h
  | cons z zs ih =>
    rcases List.mem_cons.1 h with rfl | h
    · exact le_trans (le_max_right x y) (le_listMax (max x y) zs)
    · exact ih (max x z) h

theorem listMax_mem (x : ℚ) (xs : List ℚ) : listMax x xs ∈ x :: xs := by
  induction xs generalizing x with
  | nil => simp [listMax]
  | cons y ys ih =>
    have hm := ih (max x y)
    have hrw : listMax x (y :: ys) = listMax (max x y) ys := rfl
    rcases List.mem_cons.1 hm with heq | hmem
    · rcases max_choice x y with hc | hc
      · rw [hrw, heq, hc]; exact List.mem_cons_self x (y :: ys)
      · rw [hrw, heq, hc]; exact List.mem_cons_of_mem x (List.mem_cons_self y ys)
    · rw [hrw]
      exact List.mem_cons_of_mem x (List.mem_cons_of_mem y hmem)

theorem listMin_le (x : ℚ) (xs : List ℚ) : listMin x xs ≤ x := by
  induction xs generalizing x with
  | nil => simp [listMin]
  | cons y ys ih =>
    exact le_trans (ih (min x y)) (min_le_left x y)

theorem listMin_le_mem {y : ℚ} (x : ℚ) (xs : List ℚ) (h : y ∈ xs) : listMin x xs ≤ y := by
  induction xs generalizing x with
  | nil => cases h
  | cons z zs ih =>
    rcases List.mem_cons.1 h with rfl | h
    · exact le_trans (listMin_le (min x y) zs) (min_le_right x y)
    · exact ih (min x z) h

theorem listMin_mem (x : ℚ) (xs : List ℚ) : listMin x xs ∈ x :: xs := by
  induction xs generalizing x with
  | nil => simp [listMin]
  | cons y ys ih =>
    have hm := ih (min x y)
    have hrw : listMin x (y :: ys) = listMin (min x y) ys := rfl
    rcases List.mem_cons.1 hm with heq | hmem
    · rcases min_choice x y with hc | hc
      · rw [hrw, heq, hc]; exact List.mem_cons_self x (y :: ys)
      · rw [hrw, heq, hc]; exact List.mem_cons_of_mem x (List.mem_cons_self y ys)
    · rw [hrw]
      exact List.mem_cons_of_mem x (List.mem_cons_of_mem y hmem)

theorem filterMap_eq_map_getD {α : Type} {l : List α} {v : α → Option Int}
    (h : ∀ b ∈ l, (v b).isSome = true) :
    l.filterMap v = l.map (fun b => (v b).getD 0) := by
  induction l with
  | nil => rfl
  | cons b bs ih =>
    have hb := h b (List.mem_cons_self b bs)
    rcases Option.isSome_iff_exists.1 hb with ⟨x, hx⟩
    rw [List.filterMap_cons, List.map_cons, hx,
      ih (fun b' h' => h b' (List.mem_cons_of_mem b h'))]
    rfl

theorem aggregate_standard_fields {first : Bar} {r : List Bar} {target : Timeframe}
    {agg last : Bar} (hlast : (first :: r).getLast? = some last)
    (h : BarAggregator.aggregate_standard (first :: r) target = some agg) :
    agg.symbol = first.symbol ∧ agg.timeframe = target ∧
    agg.timestamp_start = first.timestamp_start ∧ agg.timestamp_end = last.timestamp_end ∧
    agg.open_ = first.open_ ∧ agg.close = last.close ∧
    agg.high = listMax first.high (r.map (fun b => b.high)) ∧
    agg.low = listMin first.low (r.map (fun b => b.low)) ∧
    agg.volume = VolumeAggregator.aggregate_volume (first :: r) ∧
    agg.tick_count = VolumeAggregator.aggregate_tick_count (first :: r) := by
  unfold BarAggregator.aggregate_standard at h
  rw [hlast] at h
  dsimp only at h
  cases hv : VolumeAggregator.aggregate_volume (first :: r) with
  | none =>
    cases ht : VolumeAggregator.aggregate_tick_count (first :: r) with
    | none =>
      rw [hv, ht] at h
      injection h with h1
      subst h1
      exact ⟨rfl, rfl, rfl, rfl, rfl, rfl, rfl, rfl,
        by simp [hv, Bar.new, Bar.with_volume, Bar.with_tick_count],
        by simp [ht, Bar.new, Bar.with_volume, Bar.with_tick_count]⟩
    | some ticks =>
      rw [hv, ht] at h
      injection h with h1
      subst h1
      exact ⟨rfl, rfl, rfl, rfl, rfl, rfl, rfl, rfl,
        by simp [hv, Bar.new, Bar.with_volume, Bar.with_tick_count],
        by simp [ht, Bar.new, Bar.with_volume, Bar.with_tick_count]⟩
  | some vol =>
    cases ht : VolumeAggregator.aggregate_tick_count (first :: r) with
    | none =>
      rw [hv, ht] at h
      injection h with h1
      subst h1
      exact ⟨rfl, rfl, rfl, rfl, rfl, rfl, rfl, rfl,
        by simp [hv, Bar.new, Bar.with_volume, Bar.with_tick_count],
        by simp [ht, Bar.new, Bar.with_volume, Bar.with_tick_count]⟩
    | some ticks =>
      rw [hv, ht] at h
      injection h with h1
      subst h1
      exact ⟨rfl, rfl, rfl, rfl, rfl, rfl, rfl, rfl,
        by simp [hv, Bar.new, Bar.with_volume, Bar.with_tick_count],
        by simp [ht, Bar.new, Bar.with_volume, Bar.with_tick_count]⟩

/-- C6: when the pending queue for a target timeframe reaches
`bars_per_aggregation` bars, `process_bar` emits exactly one target bar
whose open is the first source bar's open, close is the last (N-th) source
bar's close, high is the maximum of the N highs, low is the minimum of the
N lows, volume and tick_count are the sums over the N source bars (when
present, per the aggregator's `Option` volume handling), timestamp_start
is the first bar's and timestamp_end is the N-th bar's; the pending queue
is then cleared. -/
theorem cascade_aggregation_spec (rule : AggregationRule)
    (is_session_boundary : Timeframe → Int → Bool) (pending : List Bar) (bar first : Bar)
    (hfirst : (pending ++ [bar]).head? = some first)
    (hN : (pending ++ [bar]).length = rule.bars_per_aggregation) :
    ∃ agg : Bar,
      BarAggregator.process_bar_step rule is_session_boundary pending bar =
        ([], some agg) ∧
      agg.open_ = first.open_ ∧ agg.close = bar.close ∧
      (∀ b ∈ pending ++ [bar], b.high ≤ agg.high) ∧
      agg.high ∈ (pending ++ [bar]).map (fun b => b.high) ∧
      (∀ b ∈ pending ++ [bar], agg.low ≤ b.low) ∧
      agg.low ∈ (pending ++ [bar]).map (fun b => b.low) ∧
      agg.timestamp_start = first.timestamp_start ∧
      agg.timestamp_end = bar.timestamp_end ∧
      agg.timeframe = rule.target_timeframe ∧ agg.symbol = first.symbol ∧
      ((∀ b ∈ pending ++ [bar], b.volume.isSome = true) →
        0 < ((pending ++ [bar]).map (fun b => b.volume.getD 0)).sum →
        agg.volume = some (((pending ++ [bar]).map (fun b => b.volume.getD 0)).sum)) ∧
      ((∀ b ∈ pending ++ [bar], b.tick_count.isSome = true) →
        0 < ((pending ++ [bar]).map (fun b => b.tick_count.getD 0)).sum →
        agg.tick_count = some (((pending ++ [bar]).map (fun b => b.tick_count.getD 0)).sum)) := by
  have hlast : (pending ++ [bar]).getLast? = some bar := List.getLast?_concat pending
  cases hq : pending ++ [bar] with
  | nil => rw [hq] at hfirst; exact absurd hfirst (by simp)
  | cons f r =>
    rw [hq] at hfirst hlast hN
    have hf : f = first := by
      simpa using hfirst
    subst hf
    have hstd : ∃ agg, BarAggregator.aggregate_standard (f :: r) rule.target_timeframe =
        some agg := by
      unfold BarAggregator.aggregate_standard
      rw [hlast]
      exact ⟨_, rfl⟩
    obtain ⟨agg, hagg⟩ := hstd
    obtain ⟨hsym, htf, hts, hte, hopen, hclose, hhigh, hlow, hvol, htick⟩ :=
      aggregate_standard_fields hlast hagg
    have hstep : BarAggregator.process_bar_step rule is_session_boundary pending bar =
        ([], some agg) := by
      unfold BarAggregator.process_bar_step BarAggregator.try_aggregate_bars
      rw [hq]
      dsimp only
      rw [hN, if_pos (le_refl rule.bars_per_aggregation), ← hN, List.take_length, hagg]
    refine ⟨agg, hstep, hopen, by rw [hclose], ?_, ?_, ?_, ?_, hts, by rw [hte], htf, hsym,
      ?_, ?_⟩
    · intro b hb
      rw [hhigh]
      rcases List.mem_cons.1 hb with rfl | hb
      · exact le_listMax b.high _
      · exact mem_le_listMax f.high _ (List.mem_map_of_mem (fun b => b.high) hb)
    · rw [List.map_cons, hhigh]
      exact listMax_mem f.high _
    · intro b hb
      rw [hlow]
      rcases List.mem_cons.1 hb with rfl | hb
      · exact listMin_le b.low _
      · exact listMin_le_mem f.low _ (List.mem_map_of_mem (fun b => b.low) hb)
    · rw [List.map_cons, hlow]
      exact listMin_mem f.low _
    · intro hall hpos
      rw [hvol]
      unfold VolumeAggregator.aggregate_volume
      rw [if_neg (by simp), filterMap_eq_map_getD hall, if_pos hpos]
    · intro hall hpos
      rw [htick]
      unfold VolumeAggregator.aggregate_tick_count
      rw [if_neg (by simp), filterMap_eq_map_getD hall, if_pos hpos]

/-- Witness for C6: aggregating two M1 bars into an M5 bar under
`aggRuleExample`. -/
theorem cascade_aggregation_spec_witness :
    ∃ agg : Bar,
      BarAggregator.process_bar_step aggRuleExample (fun _ _ => false) [aggBarA] aggBarB =
        ([], some agg) ∧
      agg.open_ = aggBarA.open_ ∧ agg.close = aggBarB.close ∧
      (∀ b ∈ [aggBarA] ++ [aggBarB], b.high ≤ agg.high) ∧
      agg.high ∈ ([aggBarA] ++ [aggBarB]).map (fun b => b.high) ∧
      (∀ b ∈ [aggBarA] ++ [aggBarB], agg.low ≤ b.low) ∧
      agg.low ∈ ([aggBarA] ++ [aggBarB]).map (fun b => b.low) ∧
      agg.timestamp_start = aggBarA.timestamp_start ∧
      agg.timestamp_end = aggBarB.timestamp_end ∧
      agg.timeframe = aggRuleExample.target_timeframe ∧ agg.symbol = aggBarA.symbol ∧
      ((∀ b ∈ [aggBarA] ++ [aggBarB], b.volume.isSome = true) →
        0 < (([aggBarA] ++ [aggBarB]).map (fun b => b.volume.getD 0)).sum →
        agg.volume = some ((([aggBarA] ++ [aggBarB]).map (fun b => b.volume.getD 0)).sum)) ∧
      ((∀ b ∈ [aggBarA] ++ [aggBarB], b.tick_count.isSome = true) →
        0 < (([aggBarA] ++ [aggBarB]).map (fun b => b.tick_count.getD 0)).sum →
        agg.tick_count =
          some ((([aggBarA] ++ [aggBarB]).map (fun b => b.tick_count.getD 0)).sum)) :=
  cascade_aggregation_spec aggRuleExample (fun _ _ => false) [aggBarA] aggBarB aggBarA
    (by decide) (by decide)

theorem partialBar_new_inv (price : ℚ) (volume : Int) (t bs be : Int) :
    pbOHLCInv (PartialBar.new price volume t bs be) :=
  ⟨le_refl price, le_refl price, le_refl price, le_refl price⟩

theorem partialBar_update_inv {pb : PartialBar} (h : pbOHLCInv pb) (price : ℚ)
    (volume : Int) (t bs be : Int) :
    pbOHLCInv (pb.update price volume t bs be) := by
  obtain ⟨h1, h2, h3, h4⟩ := h
  exact ⟨le_trans (min_le_left pb.low price) h1, min_le_right pb.low price,
    le_trans h3 (le_max_left pb.high price), le_max_right pb.high price⟩

theorem start_new_bar_inv {tf : Timeframe} {s : TimeframeState} (htf : s.timeframe = tf)
    (bar_start bar_end : Int) (hbe : bar_end = bar_start + tf.duration_ms)
    (price : ℚ) (volume t : Int) :
    tfStateInv tf (s.start_new_bar bar_start bar_end price volume t) := by
  refine ⟨htf, ?_⟩
  intro pb hpb
  unfold TimeframeState.start_new_bar at hpb
  simp only [Option.some_inj] at hpb
  subst hpb
  exact ⟨partialBar_new_inv price volume t bar_start bar_end, hbe⟩

theorem update_current_bar_inv {tf : Timeframe} {s : TimeframeState}
    (hs : tfStateInv tf s) (price : ℚ) (volume t : Int) :
    tfStateInv tf (s.update_current_bar price volume t) := by
  obtain ⟨htf, hinv⟩ := hs
  unfold TimeframeState.update_current_bar
  cases hcb : s.current_bar with
  | none => exact ⟨htf, fun pb hpb => hinv pb hpb⟩
  | some pb =>
    obtain ⟨hpb, hwin⟩ := hinv pb hcb
    refine ⟨htf, ?_⟩
    intro pb' hpb'
    simp only [Option.some_inj] at hpb'
    subst hpb'
    exact ⟨partialBar_update_inv hpb price volume t s.bar_start_time s.bar_end_time, hwin⟩

theorem complete_current_bar_spec {s : TimeframeState} {pb : PartialBar} {symbol : String}
    (hcb : s.current_bar = some pb) :
    (s.complete_current_bar symbol).2 =
      some (((Bar.new symbol s.timeframe s.bar_start_time s.bar_end_time pb.open_ pb.high
        pb.low pb.close).with_volume pb.volume).with_tick_count (Int.ofNat pb.tick_count)) ∧
    (s.complete_current_bar symbol).1.timeframe = s.timeframe ∧
    (s.complete_current_bar symbol).1.current_bar = none := by
  unfold TimeframeState.complete_current_bar
  rw [hcb]
  exact ⟨rfl, rfl, rfl⟩

theorem process_tick_inv {tf : Timeframe} {s : TimeframeState} (hs : tfStateInv tf s)
    (symbol : String) (timestamp : Int) (price : ℚ) (volume : Int) :
    tfStateInv tf (s.process_tick symbol timestamp price volume).1 ∧
    ∀ B, (s.process_tick symbol timestamp price volume).2 = some B →
      (B.low ≤ min B.open_ B.close ∧ min B.open_ B.close ≤ max B.open_ B.close ∧
       max B.open_ B.close ≤ B.high ∧
       B.timestamp_end - B.timestamp_start = tf.duration_ms ∧
       B.timeframe = tf ∧ B.symbol = symbol) := by
  obtain ⟨htf, hinv⟩ := hs
  unfold TimeframeState.process_tick
  have hbe : s.timeframe.bar_end_timestamp (s.timeframe.bar_start_timestamp timestamp) =
      s.timeframe.bar_start_timestamp timestamp + tf.duration_ms := by
    rw [htf]; rfl
  dsimp only
  by_cases hcond : (s.timeframe.bar_start_timestamp timestamp ≠ s.bar_start_time ∧
      s.current_bar.isSome = true)
  · rw [if_pos hcond]
    obtain ⟨hne, hsome⟩ := hcond
    obtain ⟨pb, hcb⟩ := Option.isSome_iff_exists.1 hsome
    obtain ⟨hpb, hwin⟩ := hinv pb hcb
    obtain ⟨hc2, hctf, _⟩ := @complete_current_bar_spec s pb symbol hcb
    constructor
    · show tfStateInv tf ((s.complete_current_bar symbol).1.start_new_bar
        (s.timeframe.bar_start_timestamp timestamp)
        (s.timeframe.bar_end_timestamp (s.timeframe.bar_start_timestamp timestamp))
        price volume timestamp)
      exact start_new_bar_inv (hctf.trans htf) _ _ hbe price volume timestamp
    · intro B hB
      have hB' : (s.complete_current_bar symbol).2 = some B := hB
      rw [hc2] at hB'
      simp only [Option.some_inj] at hB'
      subst hB'
      refine ⟨le_min hpb.1 hpb.2.1, min_le_max, max_le hpb.2.2.1 hpb.2.2.2, ?_, htf, rfl⟩
      show s.bar_end_time - s.bar_start_time = tf.duration_ms
      omega
  · rw [if_neg hcond]
    cases hcb : s.current_bar with
    | none =>
      constructor
      · exact start_new_bar_inv htf _ _ hbe price volume timestamp
      · intro B hB
        exact absurd hB (by simp)
    | some pb =>
      constructor
      · exact update_current_bar_inv ⟨htf, hinv⟩ price volume timestamp
      · intro B hB
        exact absurd hB (by simp)

theorem run_bars_ok {tf : Timeframe} (symbol : String) (ticks : List (Int × ℚ × Int)) :
    ∀ (s : TimeframeState), tfStateInv tf s →
      ∀ B ∈ (s.run symbol ticks).2,
        (B.low ≤ min B.open_ B.close ∧ min B.open_ B.close ≤ max B.open_ B.close ∧
         max B.open_ B.close ≤ B.high ∧
         B.timestamp_end - B.timestamp_start = tf.duration_ms ∧
         B.timeframe = tf ∧ B.symbol = symbol) := by
  induction ticks with
  | nil =>
    intro s _ B hB
    simp [TimeframeState.run] at hB
  | cons tpv rest ih =>
    intro s hs B hB
    obtain ⟨t, p, v⟩ := tpv
    have hspec := process_tick_inv hs symbol t p v
    rcases hpt : s.process_tick symbol t p v with ⟨s', emitted⟩
    rw [hpt] at hspec
    rw [TimeframeState.run, hpt] at hB
    dsimp only at hB hspec
    rcases hrun : s'.run symbol rest with ⟨s'', bars⟩
    rw [hrun] at hB
    dsimp only at hB
    rcases List.mem_append.1 hB with hB | hB
    · cases emitted with
      | none => simp [Option.toList] at hB
      | some B0 =>
        simp only [Option.toList, List.mem_singleton] at hB
        subst hB
        exact hspec.2 B rfl
    · have := ih s' hspec.1 B
      rw [hrun] at this
      exact this hB

/-- C5: every completed bar emitted by per-timeframe tick processing (for
any tick sequence; prices in ℚ stand for finite, non-NaN `f64` values)
satisfies `low ≤ min(open, close) ≤ max(open, close) ≤ high`, and spans
exactly one timeframe duration: `timestamp_end − timestamp_start =
duration_ms`. -/
theorem bar_invariant_spec (tf : Timeframe) (symbol : String)
    (ticks : List (Int × ℚ × Int)) (B : Bar)
    (hB : B ∈ ((TimeframeState.new tf).run symbol ticks).2) :
    B.low ≤ min B.open_ B.close ∧ min B.open_ B.close ≤ max B.open_ B.close ∧
    max B.open_ B.close ≤ B.high ∧
    B.timestamp_end - B.timestamp_start = tf.duration_ms ∧
    B.timeframe = tf ∧ B.symbol = symbol := by
  refine run_bars_ok symbol ticks (TimeframeState.new tf) ⟨rfl, ?_⟩ B hB
  intro pb h
  simp [TimeframeState.new, TimeframeState.with_history_limit] at h

/-- Witness for C5: two ticks a minute apart complete one M1 bar. -/
theorem bar_invariant_spec_witness :
    ∃ B : Bar, B ∈ ((TimeframeState.new .M1).run "EURUSD"
        [(30000, (2 : ℚ), 1), (70000, (3 : ℚ), 1)]).2 ∧
      (B.low ≤ min B.open_ B.close ∧ min B.open_ B.close ≤ max B.open_ B.close ∧
       max B.open_ B.close ≤ B.high ∧
       B.timestamp_end - B.timestamp_start = Timeframe.duration_ms .M1 ∧
       B.timeframe = .M1 ∧ B.symbol = "EURUSD") := by
  refine ⟨((Bar.new "EURUSD" .M1 0 60000 2 2 2 2).with_volume 1).with_tick_count 1,
    ?_, bar_invariant_spec .M1 "EURUSD" [(30000, (2 : ℚ), 1), (70000, (3 : ℚ), 1)] _ ?_⟩
  · decide
  · decide

/-- Counterexample to C2: `invalidTickExample` has `bid > ask` and a
negative timestamp, yet `MTFStateManager::process_tick` accepts it (no
`InvalidTick` rejection exists anywhere in the engine) and mutates the
state — a new symbol entry appears. -/
theorem tick_validation_counterexample :
    invalidTickExample.bid > invalidTickExample.ask ∧
    invalidTickExample.timestamp < 0 ∧
    ∃ m' bars, MTFStateManager.with_default_config.process_tick invalidTickExample =
      .ok (m', bars) ∧
      m'.get_all_symbols = ["EURUSD"] ∧
      m'.states ≠ MTFStateManager.with_default_config.states := by
  refine ⟨by decide, by decide, _, _, rfl, by decide, by decide⟩

/-- C2 (amended): `MTFStateManager::process_tick` performs no per-tick
content validation at all — there is no `InvalidTick` path. The only
rejection is the capacity check: a tick for a new symbol when
`max_symbols` symbol states already exist fails (leaving the manager
unchanged, as the error returns before any mutation); every other tick —
whatever its `bid`, `ask`, `timestamp` or `symbol` — is accepted and
processed. -/
theorem tick_ingestion_amended :
    (∀ (m : MTFStateManager) (tick : Tick),
        (alistGet m.states tick.symbol).isNone = true →
        m.states.length ≥ m.config.max_symbols →
        m.process_tick tick = .error "Maximum symbols reached") ∧
    (∀ (m : MTFStateManager) (tick : Tick),
        ¬ ((alistGet m.states tick.symbol).isNone = true ∧
           m.states.length ≥ m.config.max_symbols) →
        (m.process_tick tick).isOk = true) := by
  constructor
  · intro m tick h1 h2
    unfold MTFStateManager.process_tick
    rw [if_pos ⟨h1, h2⟩]
  · intro m tick h
    unfold MTFStateManager.process_tick
    rw [if_neg h]
    rcases (match alistGet m.states tick.symbol with
      | some st => st
      | none => SymbolMTFState.new tick.symbol m.config.enabled_timeframes
          m.config.bar_history_limit).process_tick tick.timestamp
        ((tick.bid + tick.ask) / 2) (tick.bid_size.getD 0 + tick.ask_size.getD 0) with
      ⟨st', bars⟩
    rfl

/-- Witness for C2 (amended): the capacity-exhausted manager rejects a
fresh symbol; the default manager accepts the content-invalid tick. -/
theorem tick_ingestion_amended_witness :
    mgrZeroCapacityExample.process_tick invalidTickExample =
      .error "Maximum symbols reached" ∧
    (MTFStateManager.with_default_config.process_tick invalidTickExample).isOk = true :=
  ⟨tick_ingestion_amended.1 mgrZeroCapacityExample invalidTickExample (by decide) (by decide),
   tick_ingestion_amended.2 MTFStateManager.with_default_config invalidTickExample
     (by decide)⟩

theorem rsiValue_spec (g l : ℚ) (hg : 0 ≤ g) (hl : 0 ≤ l) :
    0 ≤ rsiValue g l ∧ rsiValue g l ≤ 100 ∧
    (l = 0 → rsiValue g l = 100) ∧ (g = 0 → l ≠ 0 → rsiValue g l = 0) := by
  unfold rsiValue
  by_cases h0 : l = 0
  · rw [if_pos h0]
    exact ⟨by norm_num, le_refl 100, fun _ => rfl, fun _ hne => absurd h0 hne⟩
  · rw [if_neg h0]
    by_cases hg0 : g = 0
    · rw [if_pos hg0]
      exact ⟨le_refl 0, by norm_num, fun hh => absurd hh h0, fun _ _ => rfl⟩
    · rw [if_neg hg0]
      have hlpos : 0 < l := lt_of_le_of_ne hl (Ne.symm h0)
      have hgpos : 0 < g := lt_of_le_of_ne hg (Ne.symm hg0)
      have hrs : 0 < g / l := div_pos hgpos hlpos
      have h1 : (0 : ℚ) < 1 + g / l := by linarith
      have hle : 100 / (1 + g / l) ≤ 100 := by
        rw [div_le_iff₀ h1]
        nlinarith
      have hpos2 : 0 < 100 / (1 + g / l) := div_pos (by norm_num) h1
      exact ⟨by linarith, by linarith, fun hh => absurd hh h0, fun hh _ => absurd hh hg0⟩

theorem queuesAfterPush_spec {period : Nat} (k : Nat) {s : RSI} (hper : s.period = period)
    (hglen : s.gains.length = min (k - 1) period) (hllen : s.losses.length = s.gains.length)
    (hgnn : ∀ x ∈ s.gains, 0 ≤ x) (hlnn : ∀ x ∈ s.losses, 0 ≤ x)
    {gain loss : ℚ} (hg : 0 ≤ gain) (hl : 0 ≤ loss) :
    (s.queuesAfterPush gain loss).1.length = min ((k - 1) + 1) period ∧
    (s.queuesAfterPush gain loss).2.length = (s.queuesAfterPush gain loss).1.length ∧
    (∀ x ∈ (s.queuesAfterPush gain loss).1, 0 ≤ x) ∧
    (∀ x ∈ (s.queuesAfterPush gain loss).2, 0 ≤ x) := by
  have hgm : ∀ x ∈ s.gains ++ [gain], 0 ≤ x := by
    intro x hx
    rcases List.mem_append.1 hx with hx | hx
    · exact hgnn x hx
    · rw [List.mem_singleton.1 hx]; exact hg
  have hlm : ∀ x ∈ s.losses ++ [loss], 0 ≤ x := by
    intro x hx
    rcases List.mem_append.1 hx with hx | hx
    · exact hlnn x hx
    · rw [List.mem_singleton.1 hx]; exact hl
  unfold RSI.queuesAfterPush
  by_cases hpop : (s.gains ++ [gain]).length > s.period
  · rw [if_pos hpop]
    simp only [List.length_append, List.length_cons, List.length_nil, hglen, hper] at hpop
    refine ⟨?_, ?_, ?_, ?_⟩
    · simp only [List.length_drop, List.length_append, List.length_cons, List.length_nil,
        hglen]
      omega
    · simp only [List.length_drop, List.length_append, List.length_cons, List.length_nil,
        hglen, hllen]
    · intro x hx
      exact hgm x (List.mem_of_mem_drop hx)
    · intro x hx
      exact hlm x (List.mem_of_mem_drop hx)
  · rw [if_neg hpop]
    simp only [List.length_append, List.length_cons, List.length_nil, hglen, hper] at hpop
    refine ⟨?_, ?_, ?_, ?_⟩
    · simp only [List.length_append, List.length_cons, List.length_nil, hglen]
      omega
    · simp only [List.length_append, List.length_cons, List.length_nil, hglen, hllen]
    · exact hgm
    · exact hlm

theorem rsi_update_spec {period k : Nat} (hp : 1 ≤ period) {s : RSI}
    (hs : RSIInv period k s) (close : ℚ) :
    RSIInv period (k + 1) (s.update close).1 ∧
    ((s.update close).2.isSome = true ↔ period ≤ k) ∧
    (∀ v, (s.update close).2 = some v → ∃ g l, 0 ≤ g ∧ 0 ≤ l ∧ v = rsiValue g l) := by
  obtain ⟨hper, hprev, hglen, hllen, hgnn, hlnn, hag, hal, hagn, haln⟩ := hs
  unfold RSI.update
  cases hpc : s.previous_close with
  | none =>
    have hk0 : k = 0 := by
      by_contra hne
      have h1 := hprev.2 (by omega)
      rw [hpc] at h1
      simp at h1
    subst hk0
    dsimp only
    refine ⟨⟨hper, by simp, hglen, hllen, hgnn, hlnn, ?_, ?_, hagn, haln⟩, ?_, ?_⟩
    · constructor
      · intro h; exact absurd (hag.1 h) (by omega)
      · intro h; omega
    · constructor
      · intro h; exact absurd (hal.1 h) (by omega)
      · intro h; omega
    · constructor
      · intro h; exact Bool.noConfusion h
      · intro h; omega
    · intro v hv; exact Option.noConfusion hv
  | some prev =>
    have hk1 : 1 ≤ k := hprev.1 (by rw [hpc]; rfl)
    have hgain : (0 : ℚ) ≤ max (close - prev) 0 := le_max_right _ 0
    have hloss : (0 : ℚ) ≤ max (-(close - prev)) 0 := le_max_right _ 0
    obtain ⟨hq1, hq2, hq3, hq4⟩ :=
      queuesAfterPush_spec k hper hglen hllen hgnn hlnn hgain hloss
    have hper' : (0 : ℚ) < (period : ℚ) := by
      have : (1 : ℚ) ≤ (period : ℚ) := by exact_mod_cast hp
      linarith
    dsimp only
    by_cases hemit : period ≤ k
    · have hcond : ((s.queuesAfterPush (max (close - prev) 0)
          (max (-(close - prev)) 0)).1.length == s.period) = true := by
        rw [hq1, hper]
        simp only [beq_iff_eq]
        omega
      rw [if_pos hcond]
      have hagnn : (0 : ℚ) ≤ (match s.avg_gain with
          | some prev_avg_gain => wilderStep s.period prev_avg_gain (max (close - prev) 0)
          | none => (s.queuesAfterPush (max (close - prev) 0)
              (max (-(close - prev)) 0)).1.sum / (s.period : ℚ)) := by
        cases hav : s.avg_gain with
        | none =>
          apply div_nonneg (List.sum_nonneg hq3)
          rw [hper]
          exact le_of_lt hper'
        | some a =>
          unfold wilderStep
          rw [hper]
          apply div_nonneg _ (le_of_lt hper')
          have ha := hagn a hav
          have hp1 : (0 : ℚ) ≤ (period : ℚ) - 1 := by
            have : (1 : ℚ) ≤ (period : ℚ) := by exact_mod_cast hp
            linarith
          exact add_nonneg (mul_nonneg ha hp1) hgain
      have halnn : (0 : ℚ) ≤ (match s.avg_loss with
          | some prev_avg_loss => wilderStep s.period prev_avg_loss (max (-(close - prev)) 0)
          | none => (s.queuesAfterPush (max (close - prev) 0)
              (max (-(close - prev)) 0)).2.sum / (s.period : ℚ)) := by
        cases hav : s.avg_loss with
        | none =>
          apply div_nonneg (List.sum_nonneg hq4)
          rw [hper]
          exact le_of_lt hper'
        | some a =>
          unfold wilderStep
          rw [hper]
          apply div_nonneg _ (le_of_lt hper')
          have ha := haln a hav
          have hp1 : (0 : ℚ) ≤ (period : ℚ) - 1 := by
            have : (1 : ℚ) ≤ (period : ℚ) := by exact_mod_cast hp
            linarith
          exact add_nonneg (mul_nonneg ha hp1) hloss
      refine ⟨⟨hper, by simp, ?_, ?_, hq3, hq4, ?_, ?_, ?_, ?_⟩, ?_, ?_⟩
      · show (s.queuesAfterPush (max (close - prev) 0) (max (-(close - prev)) 0)).1.length =
          min (k + 1 - 1) period
        rw [hq1]
        omega
      · show (s.queuesAfterPush (max (close - prev) 0) (max (-(close - prev)) 0)).2.length =
          (s.queuesAfterPush (max (close - prev) 0) (max (-(close - prev)) 0)).1.length
        exact hq2
      · constructor
        · intro _; omega
        · intro _; rfl
      · constructor
        · intro _; omega
        · intro _; rfl
      · intro g hgv
        have h2 := Option.some_inj.1 hgv
        rw [← h2]
        exact hagnn
      · intro l hlv
        have h2 := Option.some_inj.1 hlv
        rw [← h2]
        exact halnn
      · constructor
        · intro _; omega
        · intro _; rfl
      · intro v hv
        have h2 := Option.some_inj.1 hv
        exact ⟨_, _, hagnn, halnn, h2.symm⟩
    · have hcond : ¬ (((s.queuesAfterPush (max (close - prev) 0)
          (max (-(close - prev)) 0)).1.length == s.period) = true) := by
        rw [hq1, hper]
        simp only [beq_iff_eq]
        omega
      rw [if_neg hcond]
      refine ⟨⟨hper, by simp, ?_, ?_, hq3, hq4, ?_, ?_, hagn, haln⟩, ?_, ?_⟩
      · show (s.queuesAfterPush (max (close - prev) 0) (max (-(close - prev)) 0)).1.length =
          min (k + 1 - 1) period
        rw [hq1]
        omega
      · show (s.queuesAfterPush (max (close - prev) 0) (max (-(close - prev)) 0)).2.length =
          (s.queuesAfterPush (max (close - prev) 0) (max (-(close - prev)) 0)).1.length
        exact hq2
      · constructor
        · intro h; exact absurd (hag.1 h) (by omega)
        · intro h; omega
      · constructor
        · intro h; exact absurd (hal.1 h) (by omega)
        · intro h; omega
      · constructor
        · intro h; exact Bool.noConfusion h
        · intro h; omega
      · intro v hv; exact Option.noConfusion hv

theorem rsi_run_spec {period : Nat} (hp : 1 ≤ period) (closes : List ℚ) :
    ∀ (k : Nat) (s : RSI), RSIInv period k s →
      ((RSI.run s closes).2.length = closes.length ∧
       (∀ i (h : i < (RSI.run s closes).2.length),
         (((RSI.run s closes).2.get ⟨i, h⟩).isSome = true ↔ period ≤ k + i)) ∧
       (∀ o ∈ (RSI.run s closes).2, ∀ v, o = some v →
         ∃ g l, 0 ≤ g ∧ 0 ≤ l ∧ v = rsiValue g l)) := by
  induction closes with
  | nil =>
    intro k s _
    refine ⟨rfl, ?_, ?_⟩
    · intro i h
      simp [RSI.run] at h
    · intro o ho
      simp [RSI.run] at ho
  | cons c cs ih =>
    intro k s hs
    have hstep := rsi_update_spec hp hs c
    rcases hupd : s.update c with ⟨s', o⟩
    rw [hupd] at hstep
    rw [RSI.run, hupd]
    dsimp only
    rcases hrun : s'.run cs with ⟨s'', os⟩
    have hrest := ih (k + 1) s' hstep.1
    rw [hrun] at hrest
    dsimp only
    refine ⟨by simp [hrest.1], ?_, ?_⟩
    · intro i h
      cases i with
      | zero =>
        simpa using hstep.2.1
      | succ j =>
        have h2 := hrest.2.1 j (by simpa using h)
        rw [show k + (j + 1) = k + 1 + j from by omega]
        simpa using h2
    · intro o' ho' v hv
      rcases List.mem_cons.1 ho' with rfl | ho'
      · exact hstep.2.2 v hv
      · exact hrest.2.2 o' ho' v hv

/-- Counterexample to C8 as stated: for RSI(1) on the constant closes
`[5, 5]`, the value emitted on the second bar is `100`, although the
smoothed average gain is zero — the code checks `avg_loss == 0` first, so
when both averages are zero the output is `100`, not `0` as the claim's
"equals 0 when the smoothed average gain is zero" demands. -/
theorem rsi_zero_gain_counterexample :
    (RSI.run (RSI.new 1) [(5 : ℚ), 5]).2 = [none, some 100] ∧
    (RSI.run (RSI.new 1) [(5 : ℚ), 5]).1.avg_gain = some 0 ∧
    (100 : ℚ) ≠ 0 := by
  refine ⟨?_, ?_, by norm_num⟩ <;>
    norm_num [RSI.run, RSI.update, RSI.new, RSI.queuesAfterPush, rsiValue, wilderStep]

/-- C8 (amended): for RSI(period) with `period ≥ 1`, `update` returns
`None` on the first `period` bars (`warm_up_period() − 1` inputs) and
`Some v` on every bar thereafter; every emitted `v` is `rsiValue` of
nonnegative smoothed averages, hence `0 ≤ v ≤ 100`, with `v = 100` when
the smoothed average loss is zero and `v = 0` when the smoothed average
gain is zero **and the average loss is nonzero** (when both are zero the
loss-zero branch wins and `v = 100`); the seed averages are the simple
means of the queued `period` gains/losses and later averages advance by
the Wilder step. -/
theorem rsi_spec (period : Nat) (hp : 1 ≤ period) (closes : List ℚ) :
    ((RSI.run (RSI.new period) closes).2.length = closes.length ∧
     (∀ i (h : i < (RSI.run (RSI.new period) closes).2.length),
       (((RSI.run (RSI.new period) closes).2.get ⟨i, h⟩).isSome = true ↔ period ≤ i))) ∧
    (∀ o ∈ (RSI.run (RSI.new period) closes).2, ∀ v, o = some v →
      ∃ g l, 0 ≤ g ∧ 0 ≤ l ∧ v = rsiValue g l ∧ 0 ≤ v ∧ v ≤ 100) ∧
    (∀ g l : ℚ, 0 ≤ g → 0 ≤ l →
      (l = 0 → rsiValue g l = 100) ∧ (g = 0 → l ≠ 0 → rsiValue g l = 0)) ∧
    (∀ (s : RSI) (close prev : ℚ), s.period = period → s.previous_close = some prev →
      (s.queuesAfterPush (max (close - prev) 0) (max (-(close - prev)) 0)).1.length =
        period →
      ((s.avg_gain = none → s.avg_loss = none →
         (s.update close).2 = some (rsiValue
           ((s.queuesAfterPush (max (close - prev) 0)
              (max (-(close - prev)) 0)).1.sum / (period : ℚ))
           ((s.queuesAfterPush (max (close - prev) 0)
              (max (-(close - prev)) 0)).2.sum / (period : ℚ)))) ∧
       (∀ a b, s.avg_gain = some a → s.avg_loss = some b →
         (s.update close).2 = some (rsiValue
           (wilderStep period a (max (close - prev) 0))
           (wilderStep period b (max (-(close - prev)) 0)))))) := by
  have hinv0 : RSIInv period 0 (RSI.new period) := by
    refine ⟨rfl, by simp [RSI.new], by simp [RSI.new], by simp [RSI.new],
      by simp [RSI.new], by simp [RSI.new], ?_, ?_, by simp [RSI.new], by simp [RSI.new]⟩
    · simp [RSI.new]
    · simp [RSI.new]
  have hrun := rsi_run_spec hp closes 0 (RSI.new period) hinv0
  refine ⟨⟨hrun.1, ?_⟩, ?_, ?_, ?_⟩
  · intro i h
    simpa using hrun.2.1 i h
  · intro o ho v hv
    obtain ⟨g, l, hg, hl, hveq⟩ := hrun.2.2 o ho v hv
    obtain ⟨h0, h100, _, _⟩ := rsiValue_spec g l hg hl
    exact ⟨g, l, hg, hl, hveq, hveq ▸ h0, hveq ▸ h100⟩
  · intro g l hg hl
    obtain ⟨_, _, hz, hz'⟩ := rsiValue_spec g l hg hl
    exact ⟨hz, hz'⟩
  · intro s close prev hper hpc hlen
    unfold RSI.update
    rw [hpc]
    dsimp only
    have hcond : ((s.queuesAfterPush (max (close - prev) 0)
        (max (-(close - prev)) 0)).1.length == s.period) = true := by
      rw [hlen, hper]
      simp
    rw [if_pos hcond]
    constructor
    · intro hagn haln
      rw [hagn, haln]
      dsimp only
      rw [hper]
    · intro a b hagn haln
      rw [hagn, haln]
      dsimp only
      rw [hper]

/-- Witness for C8 (amended): the theorem instantiated at period 1 on the
closes `[1, 2]`. -/
theorem rsi_spec_witness :
    ((RSI.run (RSI.new 1) [(1 : ℚ), 2]).2.length = ([(1 : ℚ), 2] : List ℚ).length ∧
     (∀ i (h : i < (RSI.run (RSI.new 1) [(1 : ℚ), 2]).2.length),
       (((RSI.run (RSI.new 1) [(1 : ℚ), 2]).2.get ⟨i, h⟩).isSome = true ↔ 1 ≤ i))) ∧
    (∀ o ∈ (RSI.run (RSI.new 1) [(1 : ℚ), 2]).2, ∀ v, o = some v →
      ∃ g l, 0 ≤ g ∧ 0 ≤ l ∧ v = rsiValue g l ∧ 0 ≤ v ∧ v ≤ 100) ∧
    (∀ g l : ℚ, 0 ≤ g → 0 ≤ l →
      (l = 0 → rsiValue g l = 100) ∧ (g = 0 → l ≠ 0 → rsiValue g l = 0)) ∧
    (∀ (s : RSI) (close prev : ℚ), s.period = 1 → s.previous_close = some prev →
      (s.queuesAfterPush (max (close - prev) 0) (max (-(close - prev)) 0)).1.length = 1 →
      ((s.avg_gain = none → s.avg_loss = none →
         (s.update close).2 = some (rsiValue
           ((s.queuesAfterPush (max (close - prev) 0)
              (max (-(close - prev)) 0)).1.sum / ((1 : Nat) : ℚ))
           ((s.queuesAfterPush (max (close - prev) 0)
              (max (-(close - prev)) 0)).2.sum / ((1 : Nat) : ℚ)))) ∧
       (∀ a b, s.avg_gain = some a → s.avg_loss = some b →
         (s.update close).2 = some (rsiValue
           (wilderStep 1 a (max (close - prev) 0))
           (wilderStep 1 b (max (-(close - prev)) 0)))))) :=
  rsi_spec 1 (by decide) [(1 : ℚ), 2]

/-! ## C4 — recovery rejection -/

/-- Inserting into a candidate list permutes `x :: l`. -/
theorem insertByMtimeDesc_perm (x : CandidateFile) (l : List CandidateFile) :
    (insertByMtimeDesc x l).Perm (x :: l) := by
  induction l with
  | nil => simp [insertByMtimeDesc]
  | cons y ys ih =>
    simp only [insertByMtimeDesc]
    by_cases hc : x.mtime ≥ y.mtime
    · rw [if_pos hc]
    · rw [if_neg hc]
      exact (ih.cons y).trans (List.Perm.swap x y ys)

/-- The mtime-descending sort permutes its input. -/
theorem sortByMtimeDesc_perm (files : List CandidateFile) :
    (sortByMtimeDesc files).Perm files := by
  induction files with
  | nil => exact List.Perm.refl []
  | cons f fs ih =>
    exact (insertByMtimeDesc_perm f (sortByMtimeDesc fs)).trans (ih.cons f)

/-- Inserting preserves the mtime-descending pairwise ordering. -/
theorem insertByMtimeDesc_pairwise (x : CandidateFile) (l : List CandidateFile)
    (h : l.Pairwise (fun a b => b.mtime ≤ a.mtime)) :
    (insertByMtimeDesc x l).Pairwise (fun a b => b.mtime ≤ a.mtime) := by
  induction l with
  | nil => simp [insertByMtimeDesc]
  | cons y ys ih =>
    simp only [insertByMtimeDesc]
    rcases List.pairwise_cons.1 h with ⟨hy, hys⟩
    by_cases hc : x.mtime ≥ y.mtime
    · rw [if_pos hc]
      refine List.pairwise_cons.2 ⟨?_, h⟩
      intro b hb
      rcases List.mem_cons.1 hb with rfl | hb
      · exact hc
      · exact le_trans (hy b hb) hc
    · rw [if_neg hc]
      refine List.pairwise_cons.2 ⟨?_, ih hys⟩
      intro b hb
      have hbm : b = x ∨ b ∈ ys :=
        List.mem_cons.1 ((insertByMtimeDesc_perm x ys).mem_iff.1 hb)
      rcases hbm with rfl | hb'
      · exact le_of_lt (lt_of_not_ge hc)
      · exact hy b hb'

/-- The sorted candidate list is mtime-descending. -/
theorem sortByMtimeDesc_pairwise (files : List CandidateFile) :
    (sortByMtimeDesc files).Pairwise (fun a b => b.mtime ≤ a.mtime) := by
  induction files with
  | nil => simp [sortByMtimeDesc]
  | cons f fs ih => exact insertByMtimeDesc_pairwise f (sortByMtimeDesc fs) ih

/-- `validate_checkpoint` rejects a candidate whose recomputed checksum
differs from the stored trailing checksum. -/
theorem validate_checkpoint_checksum_reject (c : Codec)
    (file compressed tail decompressed : List Nat)
    (hsplit : splitChecksumTail file = some (compressed, tail))
    (hdec : c.decompress compressed = some decompressed)
    (hck : c.checksum decompressed ≠ u64OfLeBytes tail) :
    StateRecovery.validate_checkpoint c file = false := by
  unfold StateRecovery.validate_checkpoint
  rw [hsplit]
  dsimp only
  rw [hdec]
  dsimp only
  rw [if_pos hck]

/-- `validate_checkpoint` rejects a candidate whose deserialized version
differs from `CHECKPOINT_VERSION`. -/
theorem validate_checkpoint_version_reject (c : Codec)
    (file compressed tail decompressed : List Nat) (data : CheckpointData)
    (hsplit : splitChecksumTail file = some (compressed, tail))
    (hdec : c.decompress compressed = some decompressed)
    (hdes : c.deserialize decompressed = some data)
    (hver : data.version ≠ CHECKPOINT_VERSION) :
    StateRecovery.validate_checkpoint c file = false := by
  unfold StateRecovery.validate_checkpoint
  rw [hsplit]
  dsimp only
  rw [hdec]
  dsimp only
  by_cases hck : c.checksum decompressed ≠ u64OfLeBytes tail
  · rw [if_pos hck]
  · rw [if_neg hck, hdes]
    exact beq_eq_false_iff_ne.2 hver

/-- When the newest candidate fails validation, the search continues with
the remaining (next-newest) candidates. -/
theorem find_latest_skips_invalid_head (c : Codec) (files rest : List CandidateFile)
    (f : CandidateFile) (hsort : sortByMtimeDesc files = f :: rest)
    (hval : StateRecovery.validate_checkpoint c f.bytes = false) :
    StateRecovery.find_latest_valid_checkpoint c files =
      (rest.find? (fun g => StateRecovery.validate_checkpoint c g.bytes)).map
        (fun g => g.bytes) := by
  unfold StateRecovery.find_latest_valid_checkpoint
  rw [hsort]
  simp only [List.find?_cons, hval]

/-- When every candidate fails validation, `recover_state` is `none`. -/
theorem recover_state_none_of_all_invalid (c : Codec) (files : List CandidateFile)
    (h : ∀ f ∈ files, StateRecovery.validate_checkpoint c f.bytes = false) :
    StateRecovery.recover_state c files = none := by
  have hfind : (sortByMtimeDesc files).find?
      (fun f => StateRecovery.validate_checkpoint c f.bytes) = none := by
    apply List.find?_eq_none.2
    intro x hx
    have hxm : x ∈ files := (sortByMtimeDesc_perm files).mem_iff.1 hx
    simp [h x hxm]
  unfold StateRecovery.recover_state StateRecovery.find_latest_valid_checkpoint
  rw [hfind]
  rfl

/-- C4: `recover_state` examines candidates newest-first by modification
time (the sorted list is mtime-descending and a permutation of the input);
a candidate whose trailing 8-byte little-endian checksum differs from the
recomputed checksum of the decompressed payload, or whose deserialized
version differs from `CHECKPOINT_VERSION`, fails validation; an invalid
newest candidate is skipped and the next-newest candidates are tried in
order; and when every candidate fails validation, `recover_state` returns
`none` rather than restoring any state. -/
theorem recovery_rejection_spec :
    (∀ (c : Codec) (file compressed tail decompressed : List Nat),
        splitChecksumTail file = some (compressed, tail) →
        c.decompress compressed = some decompressed →
        c.checksum decompressed ≠ u64OfLeBytes tail →
        StateRecovery.validate_checkpoint c file = false) ∧
    (∀ (c : Codec) (file compressed tail decompressed : List Nat) (data : CheckpointData),
        splitChecksumTail file = some (compressed, tail) →
        c.decompress compressed = some decompressed →
        c.deserialize decompressed = some data →
        data.version ≠ CHECKPOINT_VERSION →
        StateRecovery.validate_checkpoint c file = false) ∧
    (∀ (c : Codec) (files rest : List CandidateFile) (f : CandidateFile),
        sortByMtimeDesc files = f :: rest →
        StateRecovery.validate_checkpoint c f.bytes = false →
        StateRecovery.find_latest_valid_checkpoint c files =
          (rest.find? (fun g => StateRecovery.validate_checkpoint c g.bytes)).map
            (fun g => g.bytes)) ∧
    (∀ (c : Codec) (files : List CandidateFile),
        (∀ f ∈ files, StateRecovery.validate_checkpoint c f.bytes = false) →
        StateRecovery.recover_state c files = none) ∧
    (∀ files : List CandidateFile,
        (sortByMtimeDesc files).Pairwise (fun a b => b.mtime ≤ a.mtime) ∧
        (sortByMtimeDesc files).Perm files) :=
  ⟨validate_checkpoint_checksum_reject,
   validate_checkpoint_version_reject,
   find_latest_skips_invalid_head,
   recover_state_none_of_all_invalid,
   fun files => ⟨sortByMtimeDesc_pairwise files, sortByMtimeDesc_perm files⟩⟩

/-- Witness for C4: with the concrete `codecExample`, the bad-checksum and
bad-version candidates are rejected; with the bad-checksum file newest and
the good file older, the search skips the head and settles on the good
file; and a list holding only the bad file recovers nothing. -/
theorem recovery_rejection_spec_witness :
    StateRecovery.validate_checkpoint codecExample fileBadChecksumExample = false ∧
    StateRecovery.validate_checkpoint codecExample fileBadVersionExample = false ∧
    StateRecovery.find_latest_valid_checkpoint codecExample
        [⟨fileBadChecksumExample, 5⟩, ⟨fileGoodExample, 3⟩] = some fileGoodExample ∧
    StateRecovery.recover_state codecExample [⟨fileBadChecksumExample, 5⟩] = none := by
  refine ⟨?_, ?_, ?_, ?_⟩
  · exact recovery_rejection_spec.1 codecExample fileBadChecksumExample
      [7] [8, 0, 0, 0, 0, 0, 0, 0] [7] (by decide) rfl (by decide)
  · exact recovery_rejection_spec.2.1 codecExample fileBadVersionExample
      [9] [9, 0, 0, 0, 0, 0, 0, 0] [9] checkpointDataV2Example
      (by decide) rfl rfl (by decide)
  · exact (recovery_rejection_spec.2.2.1 codecExample
      [⟨fileBadChecksumExample, 5⟩, ⟨fileGoodExample, 3⟩]
      [⟨fileGoodExample, 3⟩] ⟨fileBadChecksumExample, 5⟩
      (by decide) (by decide)).trans (by decide)
  · exact recovery_rejection_spec.2.2.2.1 codecExample
      [⟨fileBadChecksumExample, 5⟩] (by decide)

/-! ## C1 — checkpoint round-trip -/

/-- C1: the round-trip fails on real state. `exampleManagerS` (reached by
processing one EURUSD tick) has symbol set `["EURUSD"]`, yet for every
tick count, timestamp and id, restoring the checkpoint data that
`create_checkpoint` builds for it yields the default-config manager —
whose symbol set is empty — because `to_snapshot` and every `restore_*`
helper in the source is a `TODO` stub; only `tick_count` survives the
round-trip. -/
theorem checkpoint_roundtrip_loses_state :
    exampleManagerS.get_all_symbols = ["EURUSD"] ∧
    (∀ (tick_count : Nat) (now : Int) (backtest_id engine_version : String),
      StateRecovery.restore_from_checkpoint_data
          (CheckpointManager.build_checkpoint_data exampleManagerS tick_count now
            backtest_id engine_version) =
        (MTFStateManager.with_default_config, tick_count)) ∧
    MTFStateManager.with_default_config.get_all_symbols = [] ∧
    MTFStateManager.with_default_config.get_all_symbols ≠
      exampleManagerS.get_all_symbols := by
  refine ⟨by decide, ?_, rfl, by decide⟩
  intro tick_count now backtest_id engine_version
  rfl

end Backtestr
